import Mathlib

/-!
Verification of the `file-renamer` repository (AlexGiov/file-renamer).

This file gives a shallow embedding, in Lean 4, of the core of the Python
sources under `src/renamer/`:

* `src/renamer/core/sanitizer.py`  — the `FilenameSanitizer` class
  (pure string functions; embedded function by function, with Python
  string idioms such as `str.rstrip`, negative slices and `re` patterns
  modelled explicitly);
* `src/renamer/operations/base.py` — `BaseFileRenamer.rename_file` and
  `BaseFileRenamer.rename_directory` (the orchestration workflow, with the
  injected capability objects modelled as a record of pure functions and
  the capability invocations additionally recorded in an event trace);
* `src/renamer/domain/models.py`   — the immutable result/metadata values;
* `src/renamer/factory.py`         — `FileRenamerFactory.is_remote_path`.

Modelling conventions:

* Python `str` is modelled as Lean `String` (a list of unicode code
  points); slicing and per-character loops are modelled on `String.data`.
* `unicodedata.normalize("NFKC", s)` is modelled as the identity: NFKC is
  the identity on ASCII strings, and every place the proofs below rely on
  `normalize_unicode` it is applied to ASCII output of the sanitizer
  itself.  Statements about concrete inputs use NFKC-stable literals.
* `str.lower` is modelled for ASCII plus the Latin-1 letters that appear
  in the transliteration table (the only region of unicode exercised by
  the repository).
* `re` patterns are tiny and are embedded as hand-written matchers that
  implement exactly the regular language of the pattern in question.
* `hashlib.sha256(...).hexdigest()` is embedded as a full executable
  SHA-256 over `Nat` with explicit reduction modulo `2 ^ 32`.
-/

/-! ## Character class helpers (the literal character sets of sanitizer.py) -/

/-- Membership in the Python literal `'abcdefghijklmnopqrstuvwxyz0123456789'`
(sanitizer.py line 175 and line 220). -/
def lowerAlnum (c : Char) : Bool :=
  (97 ≤ c.toNat && c.toNat ≤ 122) || (48 ≤ c.toNat && c.toNat ≤ 57)

/-- Membership in the Python literal `'-_'` (sanitizer.py line 178). -/
def isSepChar (c : Char) : Bool := c == '-' || c == '_'

/-- Membership in the Python literal `' \t\n\r'` (sanitizer.py line 182). -/
def isSpaceChar (c : Char) : Bool :=
  c == ' ' || c == '\t' || c == '\n' || c == '\r'

/-- Python `str.lower` restricted to the character repertoire the repository
manipulates: ASCII `A`-`Z` and the Latin-1 uppercase letters `À`-`Þ`
(except `×`) map to their lowercase forms 32 code points higher; every
other character is left unchanged. -/
def pyLowerChar (c : Char) : Char :=
  if 65 ≤ c.toNat && c.toNat ≤ 90 then Char.ofNat (c.toNat + 32)
  else if 192 ≤ c.toNat && c.toNat ≤ 222 && !(c.toNat == 215) then
    Char.ofNat (c.toNat + 32)
  else c

/-- Python `str.lower` on a whole string. -/
def pyLower (s : String) : String := ⟨s.data.map pyLowerChar⟩

/-- Python `str.rstrip("-_")`: remove the maximal trailing run of `-`/`_`. -/
def rstripSeps : List Char → List Char
  | [] => []
  | c :: cs =>
    let r := rstripSeps cs
    if r = [] && isSepChar c then [] else c :: r

/-- The substitution `re.sub(r"^[^a-z0-9]+", "", s)` (sanitizer.py line 193):
remove the maximal leading run of characters outside `[a-z0-9]`. -/
def stripLeadingNonAlnum (l : List Char) : List Char :=
  l.dropWhile (fun c => !(lowerAlnum c))

/-- The substitution `re.sub(r"[-_]+", "-", s)` (sanitizer.py line 196):
replace every maximal run of `-`/`_` by a single `-`.  The boolean flag
records whether the previous character belonged to a run that has already
emitted its `-`. -/
def collapseSeps : Bool → List Char → List Char
  | _, [] => []
  | inRun, c :: cs =>
    if isSepChar c then
      if inRun then collapseSeps true cs else '-' :: collapseSeps true cs
    else c :: collapseSeps false cs

/-- Python slice `l[:n]` where `n` may be a negative integer
(`base_name[:max_base_len]` in sanitizer.py lines 253 and 281 can receive a
negative bound when the extension is longer than the length budget). -/
def pySlice (l : List Char) (n : Int) : List Char :=
  l.take (if n < 0 then ((l.length : Int) + n).toNat else n.toNat)

/-- Splitting a character list at every `.` — Python `str.split(".")`. -/
def splitDots : List Char → List (List Char)
  | [] => [[]]
  | c :: cs =>
    match splitDots cs with
    | [] => [[c]]
    | seg :: segs => if c == '.' then [] :: seg :: segs else (c :: seg) :: segs

/-- Adjacent-substring test: `hasPair l x y` is true iff the two-character
string `xy` occurs in `l` — Python `"xy" in s` for two-character needles
(sanitizer.py line 96). -/
def hasPair : List Char → Char → Char → Bool
  | a :: b :: t, x, y => (a == x && b == y) || hasPair (b :: t) x y
  | _, _, _ => false

/-- The optional second group `(\.[a-z0-9]+)?$` of the extension pattern:
nothing left, or a dot and a nonempty all-`[a-z0-9]` remainder. -/
def extSecondSeg : List Char → Bool
  | [] => true
  | d :: t2 => d == '.' && !(t2 = []) && t2.all lowerAlnum

/-- Matcher for the anchored pattern `^\.[a-z0-9]+(\.[a-z0-9]+)?$`
(sanitizer.py line 88).  Both starred classes exclude `.`, so maximal-munch
scanning decides the pattern. -/
def extPatternMatch (e : String) : Bool :=
  match e.data with
  | d :: t =>
    d == '.' && !(t.takeWhile lowerAlnum = []) &&
      extSecondSeg (t.dropWhile lowerAlnum)
  | [] => false

/-- Matcher for the anchored pattern `^[a-z0-9][a-z0-9_-]*[a-z0-9]$|^[a-z0-9]$`
(sanitizer.py line 92): a single `[a-z0-9]` character, or at least two
characters whose first and last are `[a-z0-9]` and whose interior lies in
`[a-z0-9_-]`. -/
def basePatternMatch (b : String) : Bool :=
  match b.data with
  | [] => false
  | [c] => lowerAlnum c
  | c :: cs =>
    lowerAlnum c &&
      (cs.dropLast.all (fun x => lowerAlnum x || isSepChar x)) &&
      (match cs.getLast? with
       | some d => lowerAlnum d
       | none => false)

/-! ## SHA-256 (embedding of `hashlib.sha256(...).hexdigest()`)

A direct executable implementation of FIPS 180-4 SHA-256 over `Nat`, with
all word arithmetic reduced modulo `2 ^ 32`. -/

/-- Reduce to a 32-bit word. -/
def w32 (n : Nat) : Nat := n % 4294967296

/-- Rotate a 32-bit word right by `k` bit positions. -/
def rotr32 (k n : Nat) : Nat := w32 ((n >>> k) ||| (n <<< (32 - k)))

/-- Big sigma-0. -/
def bsig0 (x : Nat) : Nat := rotr32 2 x ^^^ rotr32 13 x ^^^ rotr32 22 x

/-- Big sigma-1. -/
def bsig1 (x : Nat) : Nat := rotr32 6 x ^^^ rotr32 11 x ^^^ rotr32 25 x

/-- Small sigma-0. -/
def ssig0 (x : Nat) : Nat := rotr32 7 x ^^^ rotr32 18 x ^^^ (x >>> 3)

/-- Small sigma-1. -/
def ssig1 (x : Nat) : Nat := rotr32 17 x ^^^ rotr32 19 x ^^^ (x >>> 10)

/-- The 64 round constants of SHA-256 (FIPS 180-4 section 4.2.2), written
in decimal. -/
def sha256K : List Nat :=
  [1116352408, 1899447441, 3049323471, 3921009573,
   961987163, 1508970993, 2453635748, 2870763221,
   3624381080, 310598401, 607225278, 1426881987,
   1925078388, 2162078206, 2614888103, 3248222580,
   3835390401, 4022224774, 264347078, 604807628,
   770255983, 1249150122, 1555081692, 1996064986,
   2554220882, 2821834349, 2952996808, 3210313671,
   3336571891, 3584528711, 113926993, 338241895,
   666307205, 773529912, 1294757372, 1396182291,
   1695183700, 1986661051, 2177026350, 2456956037,
   2730485921, 2820302411, 3259730800, 3345764771,
   3516065817, 3600352804, 4094571909, 275423344,
   430227734, 506948616, 659060556, 883997877,
   958139571, 1322822218, 1537002063, 1747873779,
   1955562222, 2024104815, 2227730452, 2361852424,
   2428436474, 2756734187, 3204031479, 3329325298]

/-- The initial hash state of SHA-256 (FIPS 180-4 section 5.3.3), written
in decimal. -/
def sha256H0 : List Nat :=
  [1779033703, 3144134277, 1013904242, 2773480762,
   1359893119, 2600822924, 528734635, 1541459225]

/-- UTF-8 encoding of a single code point (Python `str.encode("utf-8")`,
one character at a time). -/
def utf8EncodeChar (c : Char) : List Nat :=
  let n := c.toNat
  if n < 0x80 then [n]
  else if n < 0x800 then
    [0xC0 ||| (n >>> 6), 0x80 ||| (n &&& 0x3F)]
  else if n < 0x10000 then
    [0xE0 ||| (n >>> 12), 0x80 ||| ((n >>> 6) &&& 0x3F), 0x80 ||| (n &&& 0x3F)]
  else
    [0xF0 ||| (n >>> 18), 0x80 ||| ((n >>> 12) &&& 0x3F),
     0x80 ||| ((n >>> 6) &&& 0x3F), 0x80 ||| (n &&& 0x3F)]

/-- UTF-8 bytes of a string. -/
def utf8Bytes (s : String) : List Nat := (s.data.map utf8EncodeChar).flatten

/-- Big-endian 8-byte encoding of the message bit length. -/
def lenBytes64 (n : Nat) : List Nat :=
  (List.range 8).map (fun i => (n >>> (56 - 8 * i)) % 256)

/-- SHA-256 message padding: a `0x80` byte, zeros to 56 mod 64, then the
64-bit big-endian bit length. -/
def sha256pad (msg : List Nat) : List Nat :=
  let L := msg.length
  let zeros := (119 - L % 64) % 64
  msg ++ 0x80 :: List.replicate zeros 0 ++ lenBytes64 (8 * L)

/-- Group bytes into big-endian 32-bit words. -/
def bytesToWords : List Nat → List Nat
  | a :: b :: c :: d :: rest => (((a * 256 + b) * 256 + c) * 256 + d) :: bytesToWords rest
  | _ => []

/-- Group words into 16-word blocks. -/
def wordsToBlocks : List Nat → List (List Nat)
  | w0 :: w1 :: w2 :: w3 :: w4 :: w5 :: w6 :: w7 ::
    w8 :: w9 :: w10 :: w11 :: w12 :: w13 :: w14 :: w15 :: rest =>
    [w0, w1, w2, w3, w4, w5, w6, w7, w8, w9, w10, w11, w12, w13, w14, w15] ::
      wordsToBlocks rest
  | _ => []

/-- Extend the message schedule by `n` further words.  The accumulator keeps
the schedule in most-recent-first order. -/
def extendSchedule : Nat → List Nat → List Nat
  | 0, rw => rw
  | n + 1, rw =>
    extendSchedule n
      (w32 (ssig1 (rw.getD 1 0) + rw.getD 6 0 + ssig0 (rw.getD 14 0) + rw.getD 15 0) :: rw)

/-- The full 64-word message schedule of one block. -/
def schedule (block : List Nat) : List Nat :=
  (extendSchedule 48 block.reverse).reverse

/-- One SHA-256 compression round. -/
def sha256Round (st : List Nat) (k w : Nat) : List Nat :=
  match st with
  | [a, b, c, d, e, f, g, h] =>
    let ch := (e &&& f) ^^^ ((e ^^^ 0xFFFFFFFF) &&& g)
    let t1 := w32 (h + bsig1 e + ch + k + w)
    let maj := (a &&& b) ^^^ (a &&& c) ^^^ (b &&& c)
    let t2 := w32 (bsig0 a + maj)
    [w32 (t1 + t2), a, b, c, w32 (d + t1), e, f, g]
  | _ => st

/-- Compress one 16-word block into the running hash. -/
def compressBlock (H block : List Nat) : List Nat :=
  let ws := schedule block
  let st := (sha256K.zip ws).foldl (fun s p => sha256Round s p.1 p.2) H
  (H.zip st).map (fun p => w32 (p.1 + p.2))

/-- SHA-256 of a byte list, as the final eight 32-bit hash words. -/
def sha256Words (msg : List Nat) : List Nat :=
  (wordsToBlocks (bytesToWords (sha256pad msg))).foldl compressBlock sha256H0

/-- Lowercase hex digit. -/
def hexChar (n : Nat) : Char :=
  if n < 10 then Char.ofNat (48 + n) else Char.ofNat (87 + n)

/-- A 32-bit word as 8 lowercase hex characters. -/
def wordHex (w : Nat) : List Char :=
  (List.range 8).map (fun i => hexChar ((w >>> (28 - 4 * i)) % 16))

/-- `hashlib.sha256(s.encode("utf-8")).hexdigest()`. -/
def sha256hex (s : String) : String :=
  ⟨((sha256Words (utf8Bytes s)).map wordHex).flatten⟩

namespace FilenameSanitizer

/-- `SYSTEM_FILES` (sanitizer.py lines 17-20). -/
def SYSTEM_FILES : List String :=
  [".DS_Store", "Thumbs.db", "desktop.ini", ".localized",
   "thumbs.db", "Desktop.ini", "$RECYCLE.BIN", "System Volume Information"]

/-- `RESERVED_NAMES` (sanitizer.py lines 23-27). -/
def RESERVED_NAMES : List String :=
  ["con", "prn", "aux", "nul",
   "com1", "com2", "com3", "com4", "com5", "com6", "com7", "com8", "com9",
   "lpt1", "lpt2", "lpt3", "lpt4", "lpt5", "lpt6", "lpt7", "lpt8", "lpt9"]

/-- `TRANSLITERATION_MAP` (sanitizer.py lines 30-37), as the underlying
character-to-string table of `str.maketrans`. -/
def TRANSLITERATION_MAP : List (Char × String) :=
  [('à', "a"), ('á', "a"), ('â', "a"), ('ã', "a"), ('ä', "a"), ('å', "a"),
   ('æ', "ae"),
   ('ç', "c"), ('è', "e"), ('é', "e"), ('ê', "e"), ('ë', "e"),
   ('ì', "i"), ('í', "i"), ('î', "i"), ('ï', "i"),
   ('ñ', "n"), ('ò', "o"), ('ó', "o"), ('ô', "o"), ('õ', "o"), ('ö', "o"),
   ('ø', "o"),
   ('ù', "u"), ('ú', "u"), ('û', "u"), ('ü', "u"),
   ('ý', "y"), ('ÿ', "y"), ('ß', "ss")]

/-- `MAX_FILENAME_LENGTH = 180` (sanitizer.py line 62). -/
def MAX_FILENAME_LENGTH : Nat := 180

/-- `FilenameSanitizer.is_system_file` (sanitizer.py lines 64-67). -/
def is_system_file (filename : String) : Bool :=
  SYSTEM_FILES.contains filename

/-- `unicodedata.normalize("NFKC", text)` (sanitizer.py lines 105-108),
modelled as the identity — see the header comment. -/
def normalize_unicode (text : String) : String := text

/-- One character through `str.translate(TRANSLITERATION_MAP)`: table hit
replaces the character by the mapped string, otherwise it passes through. -/
def translitChar (c : Char) : List Char :=
  match TRANSLITERATION_MAP.find? (fun p => p.1 == c) with
  | some p => p.2.data
  | none => [c]

/-- `FilenameSanitizer.transliterate` (sanitizer.py lines 110-113). -/
def transliterate (text : String) : String :=
  ⟨(text.data.map translitChar).flatten⟩

/-- `FilenameSanitizer.split_filename` (sanitizer.py lines 115-144):
`filename.rsplit(".", 2)`, then the `.tar`/`.backup` compound-extension
rule, the plain final-extension rule, or no extension at all. -/
def split_filename (filename : String) : String × String :=
  match (splitDots filename.data).reverse with
  | lastSeg :: midSeg :: front2 :: fronts =>
    if midSeg = "tar".data || midSeg = "backup".data then
      (⟨List.intercalate ['.'] ((front2 :: fronts).reverse)⟩,
       ⟨'.' :: (midSeg ++ '.' :: lastSeg)⟩)
    else
      (⟨List.intercalate ['.'] (((front2 :: fronts).reverse) ++ [midSeg])⟩,
       ⟨'.' :: lastSeg⟩)
  | [lastSeg, frontSeg] => (⟨frontSeg⟩, ⟨'.' :: lastSeg⟩)
  | _ => (filename, "")

/-- The character loop of `sanitize_base_name` (sanitizer.py lines 171-186).
`prevSep` is the Python `prev_sep` flag; `started` records `result != []`
(the loop only ever appends to `result`, so non-emptiness is monotone). -/
def sbLoop : Bool → Bool → List Char → List Char
  | _, _, [] => []
  | prevSep, started, c :: cs =>
    if lowerAlnum c then c :: sbLoop false true cs
    else if isSepChar c then
      if !prevSep && started then '-' :: sbLoop true true cs
      else sbLoop prevSep started cs
    else if isSpaceChar c then
      if !prevSep && started then '-' :: sbLoop true true cs
      else sbLoop prevSep started cs
    else sbLoop prevSep started cs

/-- `FilenameSanitizer.sanitize_base_name` (sanitizer.py lines 146-202). -/
def sanitize_base_name (name : String) : String :=
  let n := transliterate (pyLower (normalize_unicode name))
  let r1 := sbLoop false false n.data
  let r2 := rstripSeps r1
  let r3 := stripLeadingNonAlnum r2
  let r4 := collapseSeps false r3
  if r4 = [] then "file" else ⟨r4⟩

/-- `FilenameSanitizer.sanitize_extension` (sanitizer.py lines 204-222). -/
def sanitize_extension (ext : String) : String :=
  if ext = "" then ""
  else
    let l := (ext.data.dropWhile (fun c => c == '.')).map pyLowerChar
    let f := l.filter lowerAlnum
    if f = [] then "" else ⟨'.' :: f⟩

/-- `FilenameSanitizer.check_reserved_name` (sanitizer.py lines 224-237). -/
def check_reserved_name (base_name : String) : String :=
  if RESERVED_NAMES.contains (pyLower base_name) then "file_" ++ base_name
  else base_name

/-- `FilenameSanitizer.truncate_if_needed` (sanitizer.py lines 239-254).
The length budget is computed in `Int` because Python subtraction can go
negative when the extension is longer than `MAX_FILENAME_LENGTH`, in which
case `base_name[:max_base_len]` is a negative-bound slice. -/
def truncate_if_needed (base_name extension : String) : String :=
  let max_base_len : Int := (MAX_FILENAME_LENGTH : Int) - extension.length
  if (base_name.length : Int) > max_base_len then
    ⟨rstripSeps (pySlice base_name.data max_base_len)⟩
  else base_name

/-- `FilenameSanitizer.add_collision_suffix` (sanitizer.py lines 256-283):
append `--` plus the first 8 hex characters of the SHA-256 of the original
name, truncating the base (with a possibly negative Python slice bound) so
that base, suffix and extension fit the length budget when possible. -/
def add_collision_suffix (base_name extension original_name : String) : String :=
  let hash_suffix : String := ⟨(sha256hex original_name).data.take 8⟩
  let suffix_part : String := "--" ++ hash_suffix
  let max_base_len : Int :=
    (MAX_FILENAME_LENGTH : Int) - extension.length - suffix_part.length
  let base2 :=
    if (base_name.length : Int) > max_base_len then
      ⟨rstripSeps (pySlice base_name.data max_base_len)⟩
    else base_name
  base2 ++ suffix_part ++ extension

/-- `FilenameSanitizer.is_safe_filename` (sanitizer.py lines 69-103). -/
def is_safe_filename (filename : String) : Bool :=
  if !(filename == pyLower filename) then false
  else
    let be := split_filename filename
    if !(be.2 = "") && !(extPatternMatch be.2) then false
    else if !(basePatternMatch be.1) then false
    else if hasPair be.1.data '-' '-' || hasPair be.1.data '_' '_' ||
            hasPair be.1.data '-' '_' || hasPair be.1.data '_' '-' then false
    else if filename.length > MAX_FILENAME_LENGTH then false
    else true

/-- `FilenameSanitizer.sanitize` (sanitizer.py lines 285-315). -/
def sanitize (filename : String) : String :=
  let be := split_filename filename
  let safe_base := sanitize_base_name be.1
  let safe_ext := sanitize_extension be.2
  let safe_base2 := check_reserved_name safe_base
  let safe_base3 := truncate_if_needed safe_base2 safe_ext
  safe_base3 ++ safe_ext

end FilenameSanitizer

/-! ## Domain models (src/renamer/domain/models.py) -/

/-- `FileMetadata` (models.py lines 120-145).  The `__post_init__`
validation of the hash algorithm is modelled at the construction site in
`rename_file` below, where the raised `ValueError` is caught. -/
structure FileMetadata where
  original_name : String
  safe_name : String
  size_bytes : Nat
  hash_value : String
  hash_algorithm : String
  timestamp : String
deriving DecidableEq, Repr

/-- `SidecarContent` (models.py lines 148-194). -/
structure SidecarContent where
  schema : String
  original_filename : String
  safe_filename : String
  file_size_bytes : Nat
  hash : String
  hash_algorithm : String
  renamed_at : String
deriving DecidableEq, Repr

/-- `SidecarContent.from_metadata` (models.py lines 172-182). -/
def SidecarContent.from_metadata (m : FileMetadata) : SidecarContent :=
  ⟨"it.infrastructures.filemeta.v1", m.original_name, m.safe_name,
   m.size_bytes, m.hash_value, m.hash_algorithm, m.timestamp⟩

/-- `RenameResult` (models.py lines 197-265): the frozen dataclass with its
`success`/`skipped`/`failure` factory shapes. -/
structure RenameResult where
  original_path : String
  success : Bool
  new_path : Option String
  sidecar_path : Option String
  error : Option String
  skipped : Bool
deriving DecidableEq, Repr

/-- `RenameResult.success` (models.py lines 228-241). -/
def RenameResult.mkSuccess (original_path new_path sidecar_path : String) :
    RenameResult :=
  ⟨original_path, true, some new_path, some sidecar_path, none, false⟩

/-- `RenameResult.skipped` (models.py lines 243-253). -/
def RenameResult.mkSkipped (original_path reason : String) : RenameResult :=
  ⟨original_path, true, none, none, some reason, true⟩

/-- `RenameResult.failure` (models.py lines 255-265). -/
def RenameResult.mkFailure (original_path error : String) : RenameResult :=
  ⟨original_path, false, none, none, some error, false⟩

/-! ## Paths

`pathlib.Path` values are modelled as plain strings with `/` separators;
only `.name`, `.parent`, `parent / child` and `str(...)` are used by the
orchestrator. -/

/-- `Path(p).name`: the component after the last `/`. -/
def pathName (p : String) : String :=
  ⟨(p.data.reverse.takeWhile (fun c => !(c == '/'))).reverse⟩

/-- `Path(p).parent`: everything before the last `/`, or `"."`. -/
def pathParent (p : String) : String :=
  if p.data.contains '/' then
    ⟨(p.data.reverse.dropWhile (fun c => !(c == '/'))).reverse.dropLast⟩
  else "."

/-- `Path(d) / n` (with `Path(".") / n = Path(n)`). -/
def pathJoin (d n : String) : String :=
  if d = "." then n else d ++ "/" ++ n

/-! ## The orchestrator (src/renamer/operations/base.py)

`BaseFileRenamer` receives its hasher, sidecar writer and file-operations
collaborators by dependency injection (protocols.py).  They are modelled as
a record of pure functions; fallible calls return `Except String`, and the
`try`/`except` of `rename_file` converts an `error` into a `Failed` result.
`datetime.now().isoformat()` is one more injected reading (`now`).  Every
capability invocation is additionally recorded in an event trace so that
non-invocation (dry run) is expressible. -/

/-- The injected capability bundle of `BaseFileRenamer.__init__`. -/
structure Capabilities where
  file_exists : String → Bool
  perform_rename : String → String → Except String Unit
  compute_hash : String → Except String String
  algorithm_name : String
  get_file_size : String → Except String Nat
  write_sidecar : String → SidecarContent → Except String String
  list_files : String → Bool → Except String (List String)
  now : String

/-- One capability invocation, for the effect trace. -/
inductive CapEvent where
  | probe (p : String)
  | renameOp (old new : String)
  | hashOp (p : String)
  | sizeOp (p : String)
  | sidecarOp (p : String)
deriving DecidableEq, Repr

namespace BaseFileRenamer

/-- `BaseFileRenamer.rename_file` (base.py lines 82-174), returning the
`RenameResult` together with the trace of capability invocations.  The
steps mirror the source: skip system files, skip already-safe names,
sanitize, probe the candidate destination, resolve a collision, stop on
dry run, rename, hash, size, validate the metadata, write the sidecar;
every `Except.error` from a capability is converted to a `Failed` result
by the surrounding `try`/`except`. -/
def rename_file (caps : Capabilities) (file_path : String) (dry_run : Bool) :
    RenameResult × List CapEvent :=
  let filename := pathName file_path
  if FilenameSanitizer.is_system_file filename then
    (RenameResult.mkSkipped file_path "System file", [])
  else if FilenameSanitizer.is_safe_filename filename then
    (RenameResult.mkSkipped file_path "Already safe", [])
  else
    let safe0 := FilenameSanitizer.sanitize filename
    let parent := pathParent file_path
    let cand := pathJoin parent safe0
    let safe_name :=
      if caps.file_exists cand then
        FilenameSanitizer.add_collision_suffix
          (FilenameSanitizer.split_filename safe0).1
          (FilenameSanitizer.split_filename safe0).2 filename
      else safe0
    let new_path := pathJoin parent safe_name
    let ev0 : List CapEvent := [CapEvent.probe cand]
    if dry_run then
      (RenameResult.mkSuccess file_path new_path (new_path ++ ".meta.json"), ev0)
    else
      let ev1 := ev0 ++ [CapEvent.renameOp file_path new_path]
      match caps.perform_rename file_path new_path with
      | Except.error e => (RenameResult.mkFailure file_path e, ev1)
      | Except.ok _ =>
        let ev2 := ev1 ++ [CapEvent.hashOp new_path]
        match caps.compute_hash new_path with
        | Except.error e => (RenameResult.mkFailure file_path e, ev2)
        | Except.ok file_hash =>
          let ev3 := ev2 ++ [CapEvent.sizeOp new_path]
          match caps.get_file_size new_path with
          | Except.error e => (RenameResult.mkFailure file_path e, ev3)
          | Except.ok file_size =>
            if caps.algorithm_name = "sha256" || caps.algorithm_name = "md5" then
              let metadata : FileMetadata :=
                ⟨filename, safe_name, file_size, file_hash,
                 caps.algorithm_name, caps.now⟩
              let ev4 := ev3 ++ [CapEvent.sidecarOp new_path]
              match caps.write_sidecar new_path
                      (SidecarContent.from_metadata metadata) with
              | Except.error e => (RenameResult.mkFailure file_path e, ev4)
              | Except.ok sidecar_path =>
                (RenameResult.mkSuccess file_path new_path sidecar_path, ev4)
            else
              (RenameResult.mkFailure file_path
                ("Invalid hash algorithm: " ++ caps.algorithm_name ++
                 ". Must be \x27sha256\x27 or \x27md5\x27"), ev3)

/-- `BaseFileRenamer.rename_directory` (base.py lines 176-205): list the
files, apply `rename_file` to each; an exception from the listing
capability is caught by the surrounding `try`/`except`, which logs and
falls through to `return results` with the (empty) accumulated list. -/
def rename_directory (caps : Capabilities) (directory : String)
    (recursive dry_run : Bool) : List RenameResult :=
  match caps.list_files directory recursive with
  | Except.error _ => []
  | Except.ok files => files.map (fun p => (rename_file caps p dry_run).1)

end BaseFileRenamer

/-! ## Backend selection (src/renamer/factory.py) -/

/-- A character of the class `[\w-]` in `FileRenamerFactory.is_remote_path`.
Python `\w` additionally matches non-ASCII word characters; the paths this
predicate classifies are ASCII, and the embedding fixes the ASCII reading. -/
def isWordOrHyphen (c : Char) : Bool :=
  c.isAlpha || c.isDigit || c == '_' || c == '-'

/-- The negative lookahead `(?![\\\/])`: satisfied at end of input or when
the next character is neither `\` nor `/`. -/
def remoteTailOk : List Char → Bool
  | [] => true
  | t :: _ => !(t == '\\' || t == '/')

/-- After the leading letter and the maximal `[\w-]*` run: the remainder
must start with `:` and pass the lookahead. -/
def remoteAfterRun : List Char → Bool
  | [] => false
  | d :: tail => d == ':' && remoteTailOk tail

/-- `FileRenamerFactory.is_remote_path` (factory.py lines 50-79): match of
`re.match(r"^[a-zA-Z][\w-]*:(?![\\\/])", str(path))`.  Neither class
contains `:`, so the starred span is the maximal run of word/hyphen
characters, which must be followed by `:` and then by neither `\` nor `/`. -/
def is_remote_path (s : String) : Bool :=
  match s.data with
  | [] => false
  | c :: rest => c.isAlpha && remoteAfterRun (rest.dropWhile isWordOrHyphen)

/-! ## Derived definitions used by the statements and proofs -/

/-- Head is `[a-z0-9]` (vacuously true for the empty list). -/
def headAlnumB : List Char → Bool
  | [] => true
  | c :: _ => lowerAlnum c

/-- Head is not a separator (vacuously true for the empty list). -/
def headNotSepB : List Char → Bool
  | [] => true
  | c :: _ => !isSepChar c

/-- Last element is `[a-z0-9]` (vacuously true for the empty list). -/
def lastAlnumB (l : List Char) : Bool :=
  match l.getLast? with
  | some c => lowerAlnum c
  | none => true

/-- Last element is not a separator (vacuously true for the empty list). -/
def lastNotSepB (l : List Char) : Bool :=
  match l.getLast? with
  | some c => !isSepChar c
  | none => true

/-- No two adjacent characters are both separators. -/
def noSepPairB : List Char → Bool
  | a :: b :: t => !(isSepChar a && isSepChar b) && noSepPairB (b :: t)
  | _ => true

/-- Every character is `[a-z0-9]` or `-`. -/
def coreCharsB (l : List Char) : Bool :=
  l.all (fun c => lowerAlnum c || c == '-')

/-- Every character is `[a-z0-9]`, `-` or `_`. -/
def baseCharsB (l : List Char) : Bool :=
  l.all (fun c => lowerAlnum c || isSepChar c)

/-- The bundle of invariants of a base produced by the sanitizer pipeline:
nonempty, `[a-z0-9_-]` characters only, alphanumeric first and last
character, and no adjacent separator pair. -/
def GoodBase (l : List Char) : Prop :=
  l ≠ [] ∧ baseCharsB l = true ∧ headAlnumB l = true ∧
    lastAlnumB l = true ∧ noSepPairB l = true

/-- A string of `n` copies of one character. -/
def repChar (n : Nat) (c : Char) : String := ⟨List.replicate n c⟩

/-- The backend-selection pattern, stated as the claim words it: an initial
(ASCII) letter, then word characters or hyphens, then a colon not
immediately followed by a slash or backslash. -/
def remoteSpec (s : String) : Prop :=
  ∃ c ws tail, s.data = c :: ws ++ ':' :: tail ∧ c.isAlpha = true ∧
    (∀ w ∈ ws, isWordOrHyphen w = true) ∧
    ∀ t ts, tail = t :: ts → t ≠ '\\' ∧ t ≠ '/'

/-- The destination path a dry run reports: the candidate in the same
parent, or the collision-suffixed candidate when the probe reports the
destination occupied.  This restates steps 3 and 4 of `rename_file` as a
standalone function for use in specifications. -/
def dryRunTargetPath (caps : Capabilities) (p : String) : String :=
  let cand := pathJoin (pathParent p) (FilenameSanitizer.sanitize (pathName p))
  if caps.file_exists cand then
    pathJoin (pathParent p)
      (FilenameSanitizer.add_collision_suffix
        (FilenameSanitizer.split_filename
          (FilenameSanitizer.sanitize (pathName p))).1
        (FilenameSanitizer.split_filename
          (FilenameSanitizer.sanitize (pathName p))).2
        (pathName p))
  else cand

/-- Capability bundle reporting every destination occupied, with all
fallible capabilities succeeding. -/
def wCaps4 : Capabilities :=
  ⟨fun _ => true, fun _ _ => Except.ok (), fun _ => Except.ok "h", "sha256",
   fun _ => Except.ok 0, fun p _ => Except.ok (p ++ ".meta.json"),
   fun _ _ => Except.ok [], "t1"⟩

/-- A second bundle also reporting every destination occupied, but with
every other capability different from `wCaps4` (all failing). -/
def wCaps4b : Capabilities :=
  ⟨fun _ => true, fun _ _ => Except.error "down", fun _ => Except.error "down",
   "md5", fun _ => Except.error "down", fun _ _ => Except.error "down",
   fun _ _ => Except.error "down", "t2"⟩

/-- A plain all-succeeding capability bundle over a collision-free store
whose listing reports a fixed two-file batch. -/
def wCaps5 : Capabilities :=
  ⟨fun _ => false, fun _ _ => Except.ok (), fun _ => Except.ok "h", "sha256",
   fun _ => Except.ok 1, fun p _ => Except.ok (p ++ ".meta.json"),
   fun _ _ => Except.ok ["d/A B.TXT", "d/C D.TXT"], "t"⟩

/-- `wCaps5` with the rename capability raising exactly on the file
`"d/A B.TXT"`. -/
def wCaps5bad : Capabilities :=
  { wCaps5 with perform_rename := fun o n =>
      if o = "d/A B.TXT" then Except.error "disk full"
      else wCaps5.perform_rename o n }

/-- A bundle whose mutating and reading capabilities all fail, over a
collision-free store: any invocation of them would surface as `Failed`. -/
def wCaps6 : Capabilities :=
  ⟨fun _ => false, fun _ _ => Except.error "must not be called",
   fun _ => Except.error "must not be called", "sha256",
   fun _ => Except.error "must not be called",
   fun _ _ => Except.error "must not be called",
   fun _ _ => Except.ok [], "t"⟩

/-- Capability bundle whose listing capability fails. -/
def wFailListCaps : Capabilities :=
  ⟨fun _ => false, fun _ _ => Except.ok (), fun _ => Except.ok "h", "sha256",
   fun _ => Except.ok 0, fun p _ => Except.ok (p ++ ".meta.json"),
   fun _ _ => Except.error "target unreachable", "t"⟩

/-- Capability bundle whose listing capability reports an empty directory. -/
def wEmptyListCaps : Capabilities :=
  ⟨fun _ => false, fun _ _ => Except.ok (), fun _ => Except.ok "h", "sha256",
   fun _ => Except.ok 0, fun p _ => Except.ok (p ++ ".meta.json"),
   fun _ _ => Except.ok [], "t"⟩

/-! ## Small auxiliary facts -/

/-- Dropping a satisfying run: `dropWhile` over an all-satisfying block
lands exactly on the first failing element. -/
theorem dropWhile_all_append (p : Char → Bool) (ws : List Char) (x : Char)
    (t : List Char) (hws : ∀ w ∈ ws, p w = true) (hx : p x = false) :
    (ws ++ x :: t).dropWhile p = x :: t := by
  induction ws with
  | nil => simp [List.dropWhile_cons, hx]
  | cons a as ih =>
    have ha : p a = true := hws a (by simp)
    simp only [List.cons_append, List.dropWhile_cons, ha, if_true]
    exact ih (fun w hw => hws w (by simp [hw]))

/-! ## Character-level facts -/

/-- The numeric reading of `lowerAlnum`. -/
theorem lowerAlnum_toNat {c : Char} (h : lowerAlnum c = true) :
    (97 ≤ c.toNat ∧ c.toNat ≤ 122) ∨ (48 ≤ c.toNat ∧ c.toNat ≤ 57) := by
  simpa [lowerAlnum, Bool.or_eq_true, Bool.and_eq_true,
    decide_eq_true_eq] using h

/-- An alphanumeric character is not a separator. -/
theorem alnum_not_sep {c : Char} (h : lowerAlnum c = true) :
    isSepChar c = false := by
  have hn := lowerAlnum_toNat h
  have h1 : c ≠ '-' := by intro e; rw [e] at hn; revert hn; decide
  have h2 : c ≠ '_' := by intro e; rw [e] at hn; revert hn; decide
  simp [isSepChar, beq_false_of_ne h1, beq_false_of_ne h2]

/-- An alphanumeric character is not a dot. -/
theorem alnum_not_dot {c : Char} (h : lowerAlnum c = true) : c ≠ '.' := by
  intro e; have hn := lowerAlnum_toNat h; rw [e] at hn; revert hn; decide

/-- A separator character is not a dot. -/
theorem sep_not_dot {c : Char} (h : isSepChar c = true) : c ≠ '.' := by
  intro e; rw [e] at h; revert h; decide

/-- A `[a-z0-9-]` character that is a separator is the hyphen. -/
theorem core_sep_eq_hyphen {c : Char} (hc : (lowerAlnum c || c == '-') = true)
    (hs : isSepChar c = true) : c = '-' := by
  rcases Bool.or_eq_true_iff.mp hc with h | h
  · rw [alnum_not_sep h] at hs; exact absurd hs (by decide)
  · simpa using h

/-- `pyLowerChar` fixes every character outside the two uppercase ranges. -/
theorem pyLowerChar_fix {c : Char}
    (h : c.toNat < 65 ∨ (90 < c.toNat ∧ c.toNat < 192)) : pyLowerChar c = c := by
  unfold pyLowerChar
  have h1 : ¬((65 ≤ c.toNat && c.toNat ≤ 90) = true) := by
    simp only [Bool.and_eq_true, decide_eq_true_eq, not_and]
    omega
  have h2 : ¬((192 ≤ c.toNat && c.toNat ≤ 222 && !(c.toNat == 215)) = true) := by
    simp only [Bool.and_eq_true, decide_eq_true_eq]
    rintro ⟨⟨a, b⟩, -⟩
    omega
  rw [if_neg h1, if_neg h2]

/-- `pyLowerChar` fixes the characters produced by the sanitizer
(`[a-z0-9]`, separators and the dot). -/
theorem pyLowerChar_fix_sanitized {c : Char}
    (h : lowerAlnum c = true ∨ isSepChar c = true ∨ c = '.') :
    pyLowerChar c = c := by
  apply pyLowerChar_fix
  rcases h with h | h | h
  · rcases lowerAlnum_toNat h with ⟨a, b⟩ | ⟨a, b⟩ <;> omega
  · rcases Bool.or_eq_true_iff.mp h with h | h
    · have : c = '-' := by simpa using h
      rw [this]; decide
    · have : c = '_' := by simpa using h
      rw [this]; decide
  · rw [h]; decide

/-- `pyLower` fixes a string of sanitizer-produced characters. -/
theorem pyLower_fix {l : List Char}
    (h : ∀ c ∈ l, lowerAlnum c = true ∨ isSepChar c = true ∨ c = '.') :
    pyLower ⟨l⟩ = ⟨l⟩ := by
  show (⟨l.map pyLowerChar⟩ : String) = ⟨l⟩
  congr 1
  induction l with
  | nil => rfl
  | cons c cs ih =>
    simp only [List.map_cons]
    rw [pyLowerChar_fix_sanitized (h c (by simp)),
      ih (fun d hd => h d (by simp [hd]))]

/-- `translitChar` fixes every ASCII character: the transliteration table
only contains characters above code point 128. -/
theorem translitChar_fix {c : Char} (h : c.toNat < 128) :
    FilenameSanitizer.translitChar c = [c] := by
  unfold FilenameSanitizer.translitChar
  have hnone :
      FilenameSanitizer.TRANSLITERATION_MAP.find? (fun p => p.1 == c) = none := by
    apply List.find?_eq_none.mpr
    intro p hp hpc
    have hev : p.1 = c := by simpa using hpc
    have hall : ∀ q ∈ FilenameSanitizer.TRANSLITERATION_MAP, 128 ≤ q.1.toNat := by
      decide
    have h128 := hall p hp
    rw [hev] at h128
    omega
  rw [hnone]

/-- `transliterate` fixes a string of sanitizer-produced characters. -/
theorem transliterate_fix {l : List Char}
    (h : ∀ c ∈ l, lowerAlnum c = true ∨ isSepChar c = true ∨ c = '.') :
    FilenameSanitizer.transliterate ⟨l⟩ = ⟨l⟩ := by
  show (⟨(l.map FilenameSanitizer.translitChar).flatten⟩ : String) = ⟨l⟩
  congr 1
  induction l with
  | nil => rfl
  | cons c cs ih =>
    simp only [List.map_cons, List.flatten_cons]
    have hc : c.toNat < 128 := by
      rcases h c (by simp) with hh | hh | hh
      · rcases lowerAlnum_toNat hh with ⟨a, b⟩ | ⟨a, b⟩ <;> omega
      · rcases Bool.or_eq_true_iff.mp hh with hh | hh
        · have : c = '-' := by simpa using hh
          rw [this]; decide
        · have : c = '_' := by simpa using hh
          rw [this]; decide
      · rw [hh]; decide
    rw [translitChar_fix hc, ih (fun d hd => h d (by simp [hd]))]
    rfl

/-! ## Structural facts about the sanitizer building blocks -/

/-- An alphanumeric head is in particular a non-separator head. -/
theorem headAlnum_headNotSep {l : List Char} (h : headAlnumB l = true) :
    headNotSepB l = true := by
  cases l with
  | nil => rfl
  | cons c cs =>
    have : lowerAlnum c = true := h
    show (!isSepChar c) = true
    rw [alnum_not_sep this]
    rfl

/-- An alphanumeric last element is in particular a non-separator one. -/
theorem lastAlnum_lastNotSep {l : List Char} (h : lastAlnumB l = true) :
    lastNotSepB l = true := by
  unfold lastAlnumB at h
  unfold lastNotSepB
  cases hl : l.getLast? with
  | none => rfl
  | some c =>
    rw [hl] at h
    simp only at h ⊢
    rw [alnum_not_sep h]
    rfl

/-- `noSepPairB` passes to the tail. -/
theorem noSepPair_tail {a : Char} {l : List Char}
    (h : noSepPairB (a :: l) = true) : noSepPairB l = true := by
  cases l with
  | nil => rfl
  | cons b t => exact (Bool.and_eq_true_iff.mp h).2

/-- Building a `noSepPairB` list by consing a compatible head. -/
theorem noSepPair_cons_of {c : Char} {l : List Char}
    (hl : noSepPairB l = true)
    (h : isSepChar c = false ∨ headNotSepB l = true) :
    noSepPairB (c :: l) = true := by
  cases l with
  | nil => rfl
  | cons b t =>
    show (!(isSepChar c && isSepChar b) && noSepPairB (b :: t)) = true
    rw [hl]
    rcases h with h | h
    · rw [h]; rfl
    · have hb : isSepChar b = false := by
        have : (!isSepChar b) = true := h
        simpa using this
      rw [hb, Bool.and_false]
      rfl

/-- `List.all` restricts to `take`. -/
theorem all_take (p : Char → Bool) (l : List Char) (n : Nat)
    (h : l.all p = true) : (l.take n).all p = true :=
  List.all_eq_true.mpr fun c hc =>
    List.all_eq_true.mp h c (List.mem_of_mem_take hc)

/-- `noSepPairB` restricts to `take`. -/
theorem noSepPair_take (l : List Char) :
    ∀ n, noSepPairB l = true → noSepPairB (l.take n) = true := by
  induction l with
  | nil => intro n _; simp [List.take_nil]; rfl
  | cons a l ih =>
    intro n h
    cases n with
    | zero => rfl
    | succ n =>
      rw [List.take_succ_cons]
      cases l with
      | nil => simp [List.take_nil]; rfl
      | cons b t =>
        cases n with
        | zero => rfl
        | succ m =>
          have hab : (!(isSepChar a && isSepChar b)) = true :=
            (Bool.and_eq_true_iff.mp h).1
          have htail : noSepPairB ((b :: t).take (m + 1)) = true :=
            ih (m + 1) (noSepPair_tail h)
          rw [List.take_succ_cons] at htail ⊢
          show (!(isSepChar a && isSepChar b) && noSepPairB (b :: t.take m)) = true
          rw [hab, htail]
          rfl

/-- `rstripSeps` only ever removes a suffix: it is a `take` of its input. -/
theorem rstrip_eq_take (l : List Char) : ∃ n, rstripSeps l = l.take n := by
  induction l with
  | nil => exact ⟨0, rfl⟩
  | cons c cs ih =>
    obtain ⟨n, hn⟩ := ih
    by_cases hc : (rstripSeps cs = [] && isSepChar c) = true
    · exact ⟨0, by simp [rstripSeps, hc]⟩
    · refine ⟨n + 1, ?_⟩
      simp only [rstripSeps]
      rw [if_neg hc, List.take_succ_cons, hn]

/-- `rstripSeps` preserves an alphanumeric head. -/
theorem rstrip_head {l : List Char} (h : headAlnumB l = true) :
    headAlnumB (rstripSeps l) = true := by
  cases l with
  | nil => rfl
  | cons c cs =>
    simp only [rstripSeps]
    split
    · rfl
    · exact h

/-- `rstripSeps` of a nonempty list with alphanumeric head is nonempty. -/
theorem rstrip_ne_nil {l : List Char} (hne : l ≠ []) (h : headAlnumB l = true) :
    rstripSeps l ≠ [] := by
  cases l with
  | nil => exact absurd rfl hne
  | cons c cs =>
    have hsep : isSepChar c = false := alnum_not_sep h
    simp only [rstripSeps, hsep, Bool.and_false]
    simp

/-- The last element of `rstripSeps l` is never a separator. -/
theorem rstrip_last (l : List Char) : lastNotSepB (rstripSeps l) = true := by
  induction l with
  | nil => rfl
  | cons c cs ih =>
    simp only [rstripSeps]
    cases hr : rstripSeps cs with
    | nil =>
      cases hsc : isSepChar c with
      | true =>
        simp only [hsc, Bool.and_true, hr]
        rfl
      | false =>
        simp only [hsc, Bool.and_false]
        show lastNotSepB [c] = true
        show (!isSepChar c) = true
        rw [hsc]
        rfl
    | cons b t =>
      have hcond : (decide (b :: t = []) && isSepChar c) = false := by simp
      rw [hcond]
      simp only [Bool.false_eq_true, if_false]
      show lastNotSepB (c :: b :: t) = true
      rw [hr] at ih
      unfold lastNotSepB at ih ⊢
      rw [List.getLast?_cons_cons]
      exact ih

/-- `rstripSeps` never lengthens its input. -/
theorem rstrip_length_le (l : List Char) :
    (rstripSeps l).length ≤ l.length := by
  obtain ⟨n, hn⟩ := rstrip_eq_take l
  rw [hn, List.length_take]
  omega

/-- A `[a-z0-9-]` list is in particular a `[a-z0-9_-]` list. -/
theorem coreChars_base {l : List Char} (h : coreCharsB l = true) :
    baseCharsB l = true := by
  apply List.all_eq_true.mpr
  intro c hc
  have := List.all_eq_true.mp h c hc
  rcases Bool.or_eq_true_iff.mp this with h1 | h1
  · simp [h1]
  · have : c = '-' := by simpa using h1
    subst this
    decide

/-- A last element that exists, has sanitizer characters and is not a
separator is alphanumeric. -/
theorem lastAlnum_of {l : List Char} (hchars : baseCharsB l = true)
    (hlast : lastNotSepB l = true) : lastAlnumB l = true := by
  unfold lastNotSepB at hlast
  unfold lastAlnumB
  cases hl : l.getLast? with
  | none => rfl
  | some c =>
    rw [hl] at hlast
    simp only at hlast ⊢
    have hmem : c ∈ l := List.mem_of_mem_getLast? hl
    have hc := List.all_eq_true.mp hchars c hmem
    rcases Bool.or_eq_true_iff.mp hc with h1 | h1
    · exact h1
    · rw [h1] at hlast
      exact absurd hlast (by decide)

/-- `stripLeadingNonAlnum` fixes a list with alphanumeric head. -/
theorem stripLead_id {l : List Char} (h : headAlnumB l = true) :
    stripLeadingNonAlnum l = l := by
  cases l with
  | nil => rfl
  | cons c cs =>
    have : lowerAlnum c = true := h
    simp [stripLeadingNonAlnum, List.dropWhile_cons, this]

/-- `collapseSeps` fixes a `[a-z0-9-]` list with no adjacent separators
(in state `true` additionally assuming a non-separator head). -/
theorem collapse_id (l : List Char) :
    coreCharsB l = true → noSepPairB l = true →
      (collapseSeps false l = l ∧
        (headNotSepB l = true → collapseSeps true l = l)) := by
  induction l with
  | nil => intro _ _; exact ⟨rfl, fun _ => rfl⟩
  | cons c cs ih =>
    intro hchars hnosep
    have hcall := List.all_eq_true.mp hchars
    have hchars' : coreCharsB cs = true :=
      List.all_eq_true.mpr fun x hx => hcall x (by simp [hx])
    have hnosep' : noSepPairB cs = true := noSepPair_tail hnosep
    have hc : (lowerAlnum c || c == '-') = true := hcall c (by simp)
    obtain ⟨ih1, ih2⟩ := ih hchars' hnosep'
    cases hsc : isSepChar c with
    | false =>
      constructor
      · simp only [collapseSeps, hsc]
        rw [ih1]
        simp
      · intro _
        simp only [collapseSeps, hsc]
        rw [ih1]
        simp
    | true =>
      have hcdash : c = '-' := core_sep_eq_hyphen hc hsc
      have hheadcs : headNotSepB cs = true := by
        cases cs with
        | nil => rfl
        | cons b t =>
          have h1 : (!(isSepChar c && isSepChar b)) = true :=
            (Bool.and_eq_true_iff.mp hnosep).1
          rw [hsc] at h1
          simp only [Bool.true_and] at h1
          exact h1
      constructor
      · simp only [collapseSeps, hsc]
        rw [ih2 hheadcs, hcdash]
        simp
      · intro hhead
        have : (!isSepChar c) = true := hhead
        rw [hsc] at this
        exact absurd this (by decide)

/-! ## The character loop of `sanitize_base_name` -/

/-- Every character emitted by the loop is `[a-z0-9]` or `-`. -/
theorem sbLoop_chars (cs : List Char) :
    ∀ ps st, coreCharsB (FilenameSanitizer.sbLoop ps st cs) = true := by
  induction cs with
  | nil => intro ps st; rfl
  | cons c cs ih =>
    intro ps st
    simp only [FilenameSanitizer.sbLoop]
    by_cases hc : lowerAlnum c = true
    · rw [if_pos hc]
      refine List.all_eq_true.mpr fun x hx => ?_
      rcases List.mem_cons.mp hx with rfl | hx2
      · simp [hc]
      · exact List.all_eq_true.mp (ih false true) x hx2
    · rw [if_neg hc]
      by_cases hs : isSepChar c = true
      · rw [if_pos hs]
        by_cases hps : (!ps && st) = true
        · rw [if_pos hps]
          refine List.all_eq_true.mpr fun x hx => ?_
          rcases List.mem_cons.mp hx with rfl | hx2
          · decide
          · exact List.all_eq_true.mp (ih true true) x hx2
        · rw [if_neg hps]; exact ih ps st
      · rw [if_neg hs]
        by_cases hsp : isSpaceChar c = true
        · rw [if_pos hsp]
          by_cases hps : (!ps && st) = true
          · rw [if_pos hps]
            refine List.all_eq_true.mpr fun x hx => ?_
            rcases List.mem_cons.mp hx with rfl | hx2
            · decide
            · exact List.all_eq_true.mp (ih true true) x hx2
          · rw [if_neg hps]; exact ih ps st
        · rw [if_neg hsp]; exact ih ps st

/-- From a state where a separator cannot be emitted first (`prevSep` set,
or nothing emitted yet), the loop output starts alphanumeric. -/
theorem sbLoop_head (cs : List Char) :
    ∀ ps st, (ps = true ∨ st = false) →
      headAlnumB (FilenameSanitizer.sbLoop ps st cs) = true := by
  induction cs with
  | nil => intro ps st _; rfl
  | cons c cs ih =>
    intro ps st hps
    simp only [FilenameSanitizer.sbLoop]
    by_cases hc : lowerAlnum c = true
    · rw [if_pos hc]; exact hc
    · rw [if_neg hc]
      have hem : ¬((!ps && st) = true) := by
        rcases hps with h | h <;> simp [h]
      by_cases hs : isSepChar c = true
      · rw [if_pos hs, if_neg hem]; exact ih ps st hps
      · rw [if_neg hs]
        by_cases hsp : isSpaceChar c = true
        · rw [if_pos hsp, if_neg hem]; exact ih ps st hps
        · rw [if_neg hsp]; exact ih ps st hps

/-- The loop never emits two adjacent separators. -/
theorem sbLoop_nosep (cs : List Char) :
    ∀ ps st, noSepPairB (FilenameSanitizer.sbLoop ps st cs) = true := by
  induction cs with
  | nil => intro ps st; rfl
  | cons c cs ih =>
    intro ps st
    simp only [FilenameSanitizer.sbLoop]
    by_cases hc : lowerAlnum c = true
    · rw [if_pos hc]
      exact noSepPair_cons_of (ih false true) (Or.inl (alnum_not_sep hc))
    · rw [if_neg hc]
      by_cases hs : isSepChar c = true
      · rw [if_pos hs]
        by_cases hps : (!ps && st) = true
        · rw [if_pos hps]
          exact noSepPair_cons_of (ih true true)
            (Or.inr (headAlnum_headNotSep (sbLoop_head cs true true (Or.inl rfl))))
        · rw [if_neg hps]; exact ih ps st
      · rw [if_neg hs]
        by_cases hsp : isSpaceChar c = true
        · rw [if_pos hsp]
          by_cases hps : (!ps && st) = true
          · rw [if_pos hps]
            exact noSepPair_cons_of (ih true true)
              (Or.inr (headAlnum_headNotSep (sbLoop_head cs true true (Or.inl rfl))))
          · rw [if_neg hps]; exact ih ps st
        · rw [if_neg hsp]; exact ih ps st

/-- The loop fixes a canonical list: `[a-z0-9-]` characters, no adjacent
separators, no trailing separator (and, for the states that can occur at
the start, an alphanumeric head). -/
theorem sbLoop_id (l : List Char) :
    coreCharsB l = true → noSepPairB l = true → lastNotSepB l = true →
      (FilenameSanitizer.sbLoop false true l = l ∧
        (headAlnumB l = true → FilenameSanitizer.sbLoop false false l = l) ∧
        (headAlnumB l = true → FilenameSanitizer.sbLoop true true l = l)) := by
  induction l with
  | nil => intro _ _ _; exact ⟨rfl, fun _ => rfl, fun _ => rfl⟩
  | cons c cs ih =>
    intro hchars hnosep hlast
    have hcall := List.all_eq_true.mp hchars
    have hchars' : coreCharsB cs = true :=
      List.all_eq_true.mpr fun x hx => hcall x (by simp [hx])
    have hnosep' := noSepPair_tail hnosep
    have hlast' : lastNotSepB cs = true := by
      cases cs with
      | nil => rfl
      | cons b t =>
        unfold lastNotSepB at hlast ⊢
        rw [List.getLast?_cons_cons] at hlast
        exact hlast
    obtain ⟨ih1, ih2, ih3⟩ := ih hchars' hnosep' hlast'
    have hc : (lowerAlnum c || c == '-') = true := hcall c (by simp)
    by_cases hca : lowerAlnum c = true
    · refine ⟨?_, fun _ => ?_, fun _ => ?_⟩ <;>
        · simp only [FilenameSanitizer.sbLoop]
          rw [if_pos hca, ih1]
    · have hcd : c = '-' := by
        rcases Bool.or_eq_true_iff.mp hc with h | h
        · exact absurd h hca
        · simpa using h
      have hsep : isSepChar c = true := by rw [hcd]; decide
      have hcs_ne : cs ≠ [] := by
        intro he
        subst he
        have hl : (!isSepChar c) = true := hlast
        rw [hsep] at hl
        exact absurd hl (by decide)
      have hhead_cs : headAlnumB cs = true := by
        cases cs with
        | nil => exact absurd rfl hcs_ne
        | cons b t =>
          have h1 : (!(isSepChar c && isSepChar b)) = true :=
            (Bool.and_eq_true_iff.mp hnosep).1
          rw [hsep] at h1
          simp only [Bool.true_and] at h1
          have hbns : isSepChar b = false := by simpa using h1
          have hb : (lowerAlnum b || b == '-') = true := hcall b (by simp)
          rcases Bool.or_eq_true_iff.mp hb with h2 | h2
          · exact h2
          · have he : b = '-' := by simpa using h2
            rw [he] at hbns
            exact absurd hbns (by decide)
      refine ⟨?_, fun hh => absurd (hh : lowerAlnum c = true) hca,
        fun hh => absurd (hh : lowerAlnum c = true) hca⟩
      simp only [FilenameSanitizer.sbLoop]
      rw [if_neg hca, if_pos hsep, if_pos (by decide : (!false && true) = true),
        ih3 hhead_cs, hcd]

/-- `rstripSeps` fixes a list whose last element is not a separator. -/
theorem rstrip_id (l : List Char) (h : lastNotSepB l = true) :
    rstripSeps l = l := by
  induction l with
  | nil => rfl
  | cons c cs ih =>
    cases cs with
    | nil =>
      have h2 : isSepChar c = false := by
        have : (!isSepChar c) = true := h
        simpa using this
      simp [rstripSeps, h2]
    | cons b t =>
      have htail : lastNotSepB (b :: t) = true := by
        unfold lastNotSepB at h ⊢
        rw [List.getLast?_cons_cons] at h
        exact h
      have hr2 : rstripSeps (b :: t) = b :: t := ih htail
      have hstep : rstripSeps (c :: b :: t) =
          (if (decide (rstripSeps (b :: t) = []) && isSepChar c) = true then []
           else c :: rstripSeps (b :: t)) := rfl
      rw [hstep, hr2]
      simp

/-! ## Normal forms of the sanitizer pipeline stages -/

/-- `sanitize_base_name` with its `let` chain written out. -/
theorem sanitize_base_name_eq (name : String) :
    FilenameSanitizer.sanitize_base_name name =
      (if collapseSeps false (stripLeadingNonAlnum (rstripSeps
            (FilenameSanitizer.sbLoop false false
              (FilenameSanitizer.transliterate (pyLower
                (FilenameSanitizer.normalize_unicode name))).data))) = []
       then "file"
       else ⟨collapseSeps false (stripLeadingNonAlnum (rstripSeps
            (FilenameSanitizer.sbLoop false false
              (FilenameSanitizer.transliterate (pyLower
                (FilenameSanitizer.normalize_unicode name))).data)))⟩) := rfl

/-- `sanitize` with its `let` chain written out. -/
theorem sanitize_eq (x : String) :
    FilenameSanitizer.sanitize x =
      FilenameSanitizer.truncate_if_needed
        (FilenameSanitizer.check_reserved_name
          (FilenameSanitizer.sanitize_base_name (FilenameSanitizer.split_filename x).1))
        (FilenameSanitizer.sanitize_extension (FilenameSanitizer.split_filename x).2) ++
      FilenameSanitizer.sanitize_extension (FilenameSanitizer.split_filename x).2 := rfl

/-- The `sanitize_base_name` output is a nonempty canonical base. -/
theorem sanitize_base_name_props (name : String) :
    GoodBase (FilenameSanitizer.sanitize_base_name name).data ∧
    coreCharsB (FilenameSanitizer.sanitize_base_name name).data = true := by
  rw [sanitize_base_name_eq]
  have h1 := sbLoop_chars
    ((FilenameSanitizer.transliterate (pyLower
      (FilenameSanitizer.normalize_unicode name))).data) false false
  have h2 := sbLoop_head
    ((FilenameSanitizer.transliterate (pyLower
      (FilenameSanitizer.normalize_unicode name))).data) false false (Or.inr rfl)
  have h3 := sbLoop_nosep
    ((FilenameSanitizer.transliterate (pyLower
      (FilenameSanitizer.normalize_unicode name))).data) false false
  obtain ⟨n, hn⟩ := rstrip_eq_take (FilenameSanitizer.sbLoop false false
    ((FilenameSanitizer.transliterate (pyLower
      (FilenameSanitizer.normalize_unicode name))).data))
  have r2chars : coreCharsB (rstripSeps (FilenameSanitizer.sbLoop false false
      ((FilenameSanitizer.transliterate (pyLower
        (FilenameSanitizer.normalize_unicode name))).data))) = true := by
    rw [hn]; exact all_take _ _ _ h1
  have r2head := rstrip_head h2
  have r2nosep : noSepPairB (rstripSeps (FilenameSanitizer.sbLoop false false
      ((FilenameSanitizer.transliterate (pyLower
        (FilenameSanitizer.normalize_unicode name))).data))) = true := by
    rw [hn]; exact noSepPair_take _ _ h3
  have r2last := rstrip_last (FilenameSanitizer.sbLoop false false
    ((FilenameSanitizer.transliterate (pyLower
      (FilenameSanitizer.normalize_unicode name))).data))
  rw [stripLead_id r2head, (collapse_id _ r2chars r2nosep).1]
  by_cases hnil : rstripSeps (FilenameSanitizer.sbLoop false false
      ((FilenameSanitizer.transliterate (pyLower
        (FilenameSanitizer.normalize_unicode name))).data)) = []
  · rw [if_pos hnil]
    constructor
    · exact ⟨by decide, by decide, by decide, by decide, by decide⟩
    · decide
  · rw [if_neg hnil]
    exact ⟨⟨hnil, coreChars_base r2chars, r2head,
      lastAlnum_of (coreChars_base r2chars) r2last, r2nosep⟩, r2chars⟩

/-- `sanitize_base_name` fixes a nonempty canonical `[a-z0-9-]` base. -/
theorem sanitize_base_name_id (l : List Char) (hne : l ≠ [])
    (hchars : coreCharsB l = true) (hhead : headAlnumB l = true)
    (hlast : lastAlnumB l = true) (hnosep : noSepPairB l = true) :
    FilenameSanitizer.sanitize_base_name ⟨l⟩ = ⟨l⟩ := by
  have hsan : ∀ c ∈ l, lowerAlnum c = true ∨ isSepChar c = true ∨ c = '.' := by
    intro c hc
    rcases Bool.or_eq_true_iff.mp (List.all_eq_true.mp hchars c hc) with h | h
    · exact Or.inl h
    · right; left
      have : c = '-' := by simpa using h
      rw [this]; decide
  rw [sanitize_base_name_eq]
  have e0 : FilenameSanitizer.normalize_unicode ⟨l⟩ = ⟨l⟩ := rfl
  rw [e0, pyLower_fix hsan, transliterate_fix hsan]
  have hlns := lastAlnum_lastNotSep hlast
  have e1 : FilenameSanitizer.sbLoop false false l = l :=
    (sbLoop_id l hchars hnosep hlns).2.1 hhead
  show (if collapseSeps false (stripLeadingNonAlnum (rstripSeps
      (FilenameSanitizer.sbLoop false false l))) = [] then "file"
    else ⟨collapseSeps false (stripLeadingNonAlnum (rstripSeps
      (FilenameSanitizer.sbLoop false false l)))⟩) = ⟨l⟩
  rw [e1, rstrip_id l hlns, stripLead_id hhead, (collapse_id l hchars hnosep).1,
    if_neg hne]

/-! ## Strings, splitting and the remaining pipeline stages -/

/-- Strings with equal character lists are equal. -/
theorem str_ext {s t : String} (h : s.data = t.data) : s = t := by
  cases s; cases t; exact congrArg String.mk h

/-- The character list of a concatenation. -/
theorem data_append (s t : String) : (s ++ t).data = s.data ++ t.data := by
  cases s; cases t; rfl

/-- Appending the empty string is the identity. -/
theorem append_empty_str (s : String) : s ++ "" = s :=
  str_ext (by rw [data_append]; simp [(rfl : ("" : String).data = [])])

/-- The length of a concatenation. -/
theorem length_append_str (s t : String) :
    (s ++ t).length = s.length + t.length := by
  show (s ++ t).data.length = s.data.length + t.data.length
  rw [data_append, List.length_append]

/-- `splitDots` of a dot-free list is that single segment. -/
theorem splitDots_dotfree (l : List Char) (h : ∀ c ∈ l, c ≠ '.') :
    splitDots l = [l] := by
  induction l with
  | nil => rfl
  | cons c cs ih =>
    have hcs := ih fun d hd => h d (by simp [hd])
    have hc : (c == '.') = false := beq_false_of_ne (h c (by simp))
    simp only [splitDots, hcs, hc]
    simp

/-- `splitDots` around a single dot between two dot-free lists. -/
theorem splitDots_append (l s : List Char) (hl : ∀ c ∈ l, c ≠ '.')
    (hs : ∀ c ∈ s, c ≠ '.') : splitDots (l ++ '.' :: s) = [l, s] := by
  induction l with
  | nil =>
    simp only [List.nil_append, splitDots, splitDots_dotfree s hs]
    simp
  | cons c l ih =>
    have hc : (c == '.') = false := beq_false_of_ne (hl c (by simp))
    simp only [List.cons_append, splitDots, hc]
    have hrec : splitDots (List.append l ('.' :: s)) = [l, s] :=
      ih fun d hd => hl d (List.mem_cons_of_mem c hd)
    rw [hrec]
    simp

/-- `split_filename` on a dot-free name: no extension. -/
theorem split_filename_dotfree (B : String) (hB : ∀ c ∈ B.data, c ≠ '.') :
    FilenameSanitizer.split_filename B = (B, "") := by
  unfold FilenameSanitizer.split_filename
  rw [splitDots_dotfree B.data hB]
  rfl

/-- `split_filename` on `base ++ "." ++ seg` with dot-free base and
segment: it returns exactly that base and the dot-led extension. -/
theorem split_filename_ext (B : String) (s : List Char)
    (hB : ∀ c ∈ B.data, c ≠ '.') (hs : ∀ c ∈ s, c ≠ '.') :
    FilenameSanitizer.split_filename (B ++ ⟨'.' :: s⟩) = (B, ⟨'.' :: s⟩) := by
  unfold FilenameSanitizer.split_filename
  have hdata : (B ++ (⟨'.' :: s⟩ : String)).data = B.data ++ '.' :: s :=
    data_append B ⟨'.' :: s⟩
  rw [hdata, splitDots_append B.data s hB hs]
  rfl

/-- Shape of `sanitize_extension`: empty or a dot before a nonempty
all-`[a-z0-9]` segment, at the level of character lists. -/
theorem sanitize_extension_cases (e : String) :
    FilenameSanitizer.sanitize_extension e = "" ∨
      ∃ s : List Char, (FilenameSanitizer.sanitize_extension e).data = '.' :: s ∧
        s ≠ [] ∧ (∀ c ∈ s, lowerAlnum c = true) := by
  unfold FilenameSanitizer.sanitize_extension
  by_cases he : e = ""
  · rw [if_pos he]; exact Or.inl rfl
  · rw [if_neg he]
    by_cases hf :
        ((e.data.dropWhile (fun c => c == '.')).map pyLowerChar).filter lowerAlnum = []
    · rw [if_pos hf]; exact Or.inl rfl
    · rw [if_neg hf]
      exact Or.inr ⟨_, rfl, hf, fun c hc => (List.mem_filter.mp hc).2⟩

/-- `sanitize_extension` fixes a canonical extension. -/
theorem sanitize_extension_id (s : List Char) (hne : s ≠ [])
    (hall : ∀ c ∈ s, lowerAlnum c = true) :
    FilenameSanitizer.sanitize_extension ⟨'.' :: s⟩ = ⟨'.' :: s⟩ := by
  unfold FilenameSanitizer.sanitize_extension
  have hne2 : ¬(⟨'.' :: s⟩ : String) = "" := by
    intro h
    exact absurd (congrArg String.data h) (by simp)
  rw [if_neg hne2]
  have hdrop : (('.' :: s).dropWhile (fun c => c == '.')) = s := by
    rw [List.dropWhile_cons]
    simp only [beq_self_eq_true, if_true]
    cases s with
    | nil => rfl
    | cons a t =>
      rw [List.dropWhile_cons]
      rw [beq_false_of_ne (alnum_not_dot (hall a (by simp)))]
      simp
  have hmap : s.map pyLowerChar = s := by
    have := pyLower_fix (l := s) fun c hc => Or.inl (hall c hc)
    exact congrArg String.data this
  have hfilter : s.filter lowerAlnum = s := List.filter_eq_self.mpr hall
  show (if ((((⟨'.' :: s⟩ : String).data.dropWhile (fun c => c == '.')).map
      pyLowerChar).filter lowerAlnum) = [] then ""
    else ⟨'.' :: ((((⟨'.' :: s⟩ : String).data.dropWhile (fun c => c == '.')).map
      pyLowerChar).filter lowerAlnum)⟩) = ⟨'.' :: s⟩
  have hchain : ((((⟨'.' :: s⟩ : String).data.dropWhile (fun c => c == '.')).map
      pyLowerChar).filter lowerAlnum) = s := by
    show ((('.' :: s).dropWhile (fun c => c == '.')).map pyLowerChar).filter
      lowerAlnum = s
    rw [hdrop, hmap, hfilter]
  rw [hchain, if_neg hne]

/-- Joining two `noSepPairB` lists whose junction is not a separator pair. -/
theorem noSepPair_append (l1 l2 : List Char) (h1 : noSepPairB l1 = true)
    (h2 : noSepPairB l2 = true)
    (hj : lastNotSepB l1 = true ∨ headNotSepB l2 = true) :
    noSepPairB (l1 ++ l2) = true := by
  induction l1 with
  | nil => simpa using h2
  | cons a l1 ih =>
    cases l1 with
    | nil =>
      apply noSepPair_cons_of h2
      rcases hj with h | h
      · left
        have : (!isSepChar a) = true := h
        simpa using this
      · right; exact h
    | cons b t =>
      show noSepPairB (a :: ((b :: t) ++ l2)) = true
      have hj2 : lastNotSepB (b :: t) = true ∨ headNotSepB l2 = true := by
        rcases hj with h | h
        · left
          unfold lastNotSepB at h ⊢
          rw [List.getLast?_cons_cons] at h
          exact h
        · right; exact h
      apply noSepPair_cons_of (ih (noSepPair_tail h1) hj2)
      by_cases hsa : isSepChar a = true
      · right
        have hab : (!(isSepChar a && isSepChar b)) = true :=
          (Bool.and_eq_true_iff.mp h1).1
        rw [hsa] at hab
        simp only [Bool.true_and] at hab
        show (!isSepChar b) = true
        exact hab
      · left
        simpa using hsa

/-- `check_reserved_name` preserves the canonical-base bundle. -/
theorem check_reserved_props (b : String) (h : GoodBase b.data) :
    GoodBase (FilenameSanitizer.check_reserved_name b).data := by
  unfold FilenameSanitizer.check_reserved_name
  by_cases hr : FilenameSanitizer.RESERVED_NAMES.contains (pyLower b) = true
  · rw [if_pos hr]
    obtain ⟨hne, hchars, hhead, hlast, hnosep⟩ := h
    have hdata : ("file_" ++ b).data = "file_".data ++ b.data := data_append _ b
    refine ⟨?_, ?_, ?_, ?_, ?_⟩
    · rw [hdata]; simp
    · rw [hdata]
      refine List.all_eq_true.mpr fun c hc => ?_
      rcases List.mem_append.mp hc with h1 | h1
      · have hf : ∀ d ∈ "file_".data, (lowerAlnum d || isSepChar d) = true := by
          decide
        exact hf c h1
      · exact List.all_eq_true.mp hchars c h1
    · rw [hdata]
      exact (show lowerAlnum 'f' = true by decide)
    · rw [hdata]
      unfold lastAlnumB at hlast ⊢
      rw [List.getLast?_append_of_ne_nil _ hne]
      exact hlast
    · rw [hdata]
      refine noSepPair_append _ _ (by decide) hnosep (Or.inr ?_)
      exact headAlnum_headNotSep hhead
  · rw [if_neg hr]; exact h

/-- `check_reserved_name` preserves the character alphabet alone. -/
theorem check_reserved_chars (b : String) (h : baseCharsB b.data = true) :
    baseCharsB (FilenameSanitizer.check_reserved_name b).data = true := by
  unfold FilenameSanitizer.check_reserved_name
  by_cases hr : FilenameSanitizer.RESERVED_NAMES.contains (pyLower b) = true
  · rw [if_pos hr]
    rw [data_append "file_" b]
    refine List.all_eq_true.mpr fun c hc => ?_
    rcases List.mem_append.mp hc with h1 | h1
    · have hf : ∀ d ∈ "file_".data, (lowerAlnum d || isSepChar d) = true := by
        decide
      exact hf c h1
    · exact List.all_eq_true.mp h c h1
  · rw [if_neg hr]; exact h

/-- `truncate_if_needed` with the `let` written out. -/
theorem truncate_if_needed_eq (b e : String) :
    FilenameSanitizer.truncate_if_needed b e =
      (if (b.length : Int) >
          (FilenameSanitizer.MAX_FILENAME_LENGTH : Int) - e.length
       then ⟨rstripSeps (pySlice b.data
         ((FilenameSanitizer.MAX_FILENAME_LENGTH : Int) - e.length))⟩
       else b) := rfl

/-- `truncate_if_needed` preserves the character alphabet. -/
theorem truncate_chars (b e : String) (h : baseCharsB b.data = true) :
    baseCharsB (FilenameSanitizer.truncate_if_needed b e).data = true := by
  rw [truncate_if_needed_eq]
  by_cases hc : (b.length : Int) >
      (FilenameSanitizer.MAX_FILENAME_LENGTH : Int) - e.length
  · rw [if_pos hc]
    obtain ⟨n, hn⟩ := rstrip_eq_take (pySlice b.data
      ((FilenameSanitizer.MAX_FILENAME_LENGTH : Int) - e.length))
    show baseCharsB (rstripSeps (pySlice b.data
      ((FilenameSanitizer.MAX_FILENAME_LENGTH : Int) - e.length))) = true
    rw [hn]
    unfold pySlice
    exact all_take _ _ _ (all_take _ _ _ h)
  · rw [if_neg hc]; exact h

/-- No character of a sanitizer base is a dot. -/
theorem baseChars_dotfree {l : List Char} (h : baseCharsB l = true) :
    ∀ c ∈ l, c ≠ '.' := by
  intro c hc
  rcases Bool.or_eq_true_iff.mp (List.all_eq_true.mp h c hc) with h1 | h1
  · exact alnum_not_dot h1
  · exact sep_not_dot h1

/-- `pySlice` with a nonnegative bound is `take`. -/
theorem pySlice_nonneg (l : List Char) (n : Int) (h : 0 ≤ n) :
    pySlice l n = l.take n.toNat := by
  unfold pySlice
  rw [if_neg (by omega)]

/-- `truncate_if_needed` keeps the canonical-base bundle and enforces the
length budget, provided the extension leaves at least one character of
budget (length at most 179). -/
theorem truncate_props (b e : String) (hb : GoodBase b.data)
    (hlen : e.length ≤ 179) :
    GoodBase (FilenameSanitizer.truncate_if_needed b e).data ∧
      (FilenameSanitizer.truncate_if_needed b e).length + e.length ≤ 180 := by
  obtain ⟨hne, hchars, hhead, hlast, hnosep⟩ := hb
  rw [truncate_if_needed_eq]
  by_cases hc : (b.length : Int) >
      (FilenameSanitizer.MAX_FILENAME_LENGTH : Int) - e.length
  · rw [if_pos hc]
    have hM : FilenameSanitizer.MAX_FILENAME_LENGTH = 180 := rfl
    have hm0 : (0 : Int) ≤ (FilenameSanitizer.MAX_FILENAME_LENGTH : Int) - e.length := by
      rw [hM]; omega
    rw [pySlice_nonneg _ _ hm0]
    have hkt : ((FilenameSanitizer.MAX_FILENAME_LENGTH : Int) - (e.length : Int)).toNat
        = 180 - e.length := by
      rw [hM]; omega
    rw [hkt]
    have hk1 : 1 ≤ 180 - e.length := by omega
    have hkle : (180 - e.length) + e.length ≤ 180 := by omega
    obtain ⟨c, cs, hbd⟩ : ∃ c cs, b.data = c :: cs := by
      cases hbd : b.data with
      | nil => exact absurd hbd hne
      | cons c cs => exact ⟨c, cs, rfl⟩
    have htake_ne : b.data.take (180 - e.length) ≠ [] := by
      rw [hbd]
      cases hg : 180 - e.length with
      | zero => omega
      | succ k2 => simp
    have htake_head : headAlnumB (b.data.take (180 - e.length)) = true := by
      rw [hbd]
      cases hg : 180 - e.length with
      | zero => omega
      | succ k2 =>
        rw [List.take_succ_cons]
        rw [hbd] at hhead
        exact hhead
    have htake_chars : baseCharsB (b.data.take (180 - e.length)) = true :=
      all_take _ _ _ hchars
    have htake_nosep : noSepPairB (b.data.take (180 - e.length)) = true :=
      noSepPair_take _ _ hnosep
    have hr_chars : baseCharsB (rstripSeps (b.data.take (180 - e.length))) = true := by
      obtain ⟨n, hn⟩ := rstrip_eq_take (b.data.take (180 - e.length))
      rw [hn]; exact all_take _ _ _ htake_chars
    have hr_nosep : noSepPairB (rstripSeps (b.data.take (180 - e.length))) = true := by
      obtain ⟨n, hn⟩ := rstrip_eq_take (b.data.take (180 - e.length))
      rw [hn]; exact noSepPair_take _ _ htake_nosep
    refine ⟨⟨rstrip_ne_nil htake_ne htake_head, hr_chars, rstrip_head htake_head,
      lastAlnum_of hr_chars (rstrip_last _), hr_nosep⟩, ?_⟩
    have h1 := rstrip_length_le (b.data.take (180 - e.length))
    have h2 : (b.data.take (180 - e.length)).length ≤ 180 - e.length := by
      rw [List.length_take]; omega
    show (rstripSeps (b.data.take (180 - e.length))).length + e.length ≤ 180
    omega
  · rw [if_neg hc]
    refine ⟨⟨hne, hchars, hhead, hlast, hnosep⟩, ?_⟩
    rw [show FilenameSanitizer.MAX_FILENAME_LENGTH = 180 from rfl] at hc
    omega

/-- Splitting a `sanitize` output recovers exactly the base and extension
the pipeline computed: the base is dot-free and the extension is empty or
a single dot-led segment, so `split_filename` inverts the concatenation. -/
theorem split_sanitize (x : String) :
    FilenameSanitizer.split_filename (FilenameSanitizer.sanitize x) =
      (FilenameSanitizer.truncate_if_needed
          (FilenameSanitizer.check_reserved_name
            (FilenameSanitizer.sanitize_base_name
              (FilenameSanitizer.split_filename x).1))
          (FilenameSanitizer.sanitize_extension
            (FilenameSanitizer.split_filename x).2),
       FilenameSanitizer.sanitize_extension
         (FilenameSanitizer.split_filename x).2) := by
  have hBchars : baseCharsB (FilenameSanitizer.truncate_if_needed
      (FilenameSanitizer.check_reserved_name
        (FilenameSanitizer.sanitize_base_name
          (FilenameSanitizer.split_filename x).1))
      (FilenameSanitizer.sanitize_extension
        (FilenameSanitizer.split_filename x).2)).data = true :=
    truncate_chars _ _ (check_reserved_chars _
      (coreChars_base
        (sanitize_base_name_props (FilenameSanitizer.split_filename x).1).2))
  have hBdf := baseChars_dotfree hBchars
  rw [sanitize_eq]
  rcases sanitize_extension_cases (FilenameSanitizer.split_filename x).2 with
    hE | ⟨s, hEd, hsne, hsall⟩
  · rw [hE, append_empty_str]
    exact split_filename_dotfree _ (by rw [hE] at hBdf; exact hBdf)
  · have hEeq : FilenameSanitizer.sanitize_extension
        (FilenameSanitizer.split_filename x).2 = ⟨'.' :: s⟩ := str_ext hEd
    rw [hEeq]
    exact split_filename_ext _ s (by rw [hEeq] at hBdf; exact hBdf)
      fun c hc => alnum_not_dot (hsall c hc)

/-- `is_safe_filename` with its `let` written out. -/
theorem is_safe_eq (f : String) :
    FilenameSanitizer.is_safe_filename f =
      (if !(f == pyLower f) then false
       else if !((FilenameSanitizer.split_filename f).2 = "") &&
              !(extPatternMatch (FilenameSanitizer.split_filename f).2) then false
       else if !(basePatternMatch (FilenameSanitizer.split_filename f).1) then
         false
       else if hasPair (FilenameSanitizer.split_filename f).1.data '-' '-' ||
               hasPair (FilenameSanitizer.split_filename f).1.data '_' '_' ||
               hasPair (FilenameSanitizer.split_filename f).1.data '-' '_' ||
               hasPair (FilenameSanitizer.split_filename f).1.data '_' '-' then
         false
       else if f.length > FilenameSanitizer.MAX_FILENAME_LENGTH then false
       else true) := rfl

/-- A list without adjacent separator pairs contains no two-separator
substring. -/
theorem hasPair_false (l : List Char) (h : noSepPairB l = true) (x y : Char)
    (hx : isSepChar x = true) (hy : isSepChar y = true) :
    hasPair l x y = false := by
  induction l with
  | nil => rfl
  | cons a l ih =>
    cases l with
    | nil => rfl
    | cons b t =>
      show ((a == x && b == y) || hasPair (b :: t) x y) = false
      rw [ih (noSepPair_tail h), Bool.or_false]
      by_cases hax : (a == x) = true
      · have ha : a = x := by simpa using hax
        have h1 : (!(isSepChar a && isSepChar b)) = true :=
          (Bool.and_eq_true_iff.mp h).1
        rw [ha, hx] at h1
        simp only [Bool.true_and] at h1
        have hbf : isSepChar b = false := by simpa using h1
        have hby : (b == y) = false := by
          apply beq_false_of_ne
          intro e
          rw [e, hy] at hbf
          exact absurd hbf (by decide)
        rw [hby, Bool.and_false]
      · have : (a == x) = false := by simpa using hax
        rw [this, Bool.false_and]

/-- The extension matcher accepts every canonical single-segment
extension. -/
theorem extPattern_of (s : List Char) (hne : s ≠ [])
    (hall : ∀ c ∈ s, lowerAlnum c = true) :
    extPatternMatch ⟨'.' :: s⟩ = true := by
  have h1 : s.takeWhile lowerAlnum = s := List.takeWhile_eq_self_iff.mpr hall
  have h2 : s.dropWhile lowerAlnum = [] := List.dropWhile_eq_nil_iff.mpr hall
  show (('.' == '.') && !(s.takeWhile lowerAlnum = []) &&
      extSecondSeg (s.dropWhile lowerAlnum)) = true
  rw [h1, h2]
  simp [hne, extSecondSeg]

/-- The base matcher accepts every canonical base. -/
theorem basePattern_of (l : List Char) (h : GoodBase l) :
    basePatternMatch ⟨l⟩ = true := by
  obtain ⟨hne, hchars, hhead, hlast, -⟩ := h
  cases l with
  | nil => exact absurd rfl hne
  | cons c cs =>
    cases cs with
    | nil => exact hhead
    | cons b t =>
      cases hd : (b :: t).getLast? with
      | none => simp at hd
      | some d =>
        have e1 : lowerAlnum c = true := hhead
        have e2 : (b :: t).dropLast.all (fun x => lowerAlnum x || isSepChar x)
            = true :=
          List.all_eq_true.mpr fun x hx =>
            List.all_eq_true.mp hchars x
              (List.mem_cons_of_mem c (List.mem_of_mem_dropLast hx))
        have e3 : lowerAlnum d = true := by
          unfold lastAlnumB at hlast
          rw [List.getLast?_cons_cons, hd] at hlast
          exact hlast
        show (lowerAlnum c && (b :: t).dropLast.all
            (fun x => lowerAlnum x || isSepChar x) &&
          (match (b :: t).getLast? with
           | some d => lowerAlnum d
           | none => false)) = true
        rw [e1, e2, hd]
        simpa using e3

/-- Sufficient conditions, in terms of the split of `f`, for
`is_safe_filename f`. -/
theorem is_safe_of_parts (f : String)
    (hlow : pyLower f = f)
    (hext : (FilenameSanitizer.split_filename f).2 = "" ∨
      extPatternMatch (FilenameSanitizer.split_filename f).2 = true)
    (hbase : basePatternMatch (FilenameSanitizer.split_filename f).1 = true)
    (hpairs : noSepPairB (FilenameSanitizer.split_filename f).1.data = true)
    (hlen : f.length ≤ 180) :
    FilenameSanitizer.is_safe_filename f = true := by
  have hp1 := hasPair_false _ hpairs '-' '-' (by decide) (by decide)
  have hp2 := hasPair_false _ hpairs '_' '_' (by decide) (by decide)
  have hp3 := hasPair_false _ hpairs '-' '_' (by decide) (by decide)
  have hp4 := hasPair_false _ hpairs '_' '-' (by decide) (by decide)
  have hl2 : ¬ f.length > FilenameSanitizer.MAX_FILENAME_LENGTH := by
    simp only [FilenameSanitizer.MAX_FILENAME_LENGTH]
    omega
  rw [is_safe_eq]
  rcases hext with he | he <;>
    simp [hlow, he, hbase, hp1, hp2, hp3, hp4, hl2]

/-- `pyLower` fixes a string of sanitizer-produced characters. -/
theorem pyLower_fix_str (s : String)
    (h : ∀ c ∈ s.data, lowerAlnum c = true ∨ isSepChar c = true ∨ c = '.') :
    pyLower s = s := by
  cases s with
  | mk l => exact pyLower_fix h

/-! ## Claim C8 -/

/-- Claim C8: the concrete cases hold —
`sanitize "My File (2023).TXT" = "my-file-2023.txt"`,
`sanitize "café.jpg" = "cafe.jpg"`,
`split_filename "archive.tar.gz" = ("archive", ".tar.gz")`, and
`sanitize "CON.txt" = "file_con.txt"`, whose base is prefixed with
`file_` and whose extension is the lowercase `.txt`. -/
theorem claim_C8 :
    FilenameSanitizer.sanitize "My File (2023).TXT" = "my-file-2023.txt" ∧
    FilenameSanitizer.sanitize "café.jpg" = "cafe.jpg" ∧
    FilenameSanitizer.split_filename "archive.tar.gz" = ("archive", ".tar.gz") ∧
    FilenameSanitizer.sanitize "CON.txt" = "file_con.txt" := by
  refine ⟨?_, ?_, ?_, ?_⟩ <;> decide

/-! ## Claim C9 -/

/-- Shape of every `sanitize_extension` output: empty, or a dot followed by
a nonempty run of `[a-z0-9]` characters (in particular dot-free after the
first character). -/
theorem sanitize_extension_shape (e : String) :
    FilenameSanitizer.sanitize_extension e = "" ∨
      ((FilenameSanitizer.sanitize_extension e).data.head? = some '.' ∧
       (FilenameSanitizer.sanitize_extension e).data.tail ≠ [] ∧
       ∀ c ∈ (FilenameSanitizer.sanitize_extension e).data.tail,
         lowerAlnum c = true ∧ c ≠ '.') := by
  unfold FilenameSanitizer.sanitize_extension
  by_cases he : e = ""
  · simp [he]
  · rw [if_neg he]
    by_cases hfe :
      ((e.data.dropWhile (fun c => c == '.')).map pyLowerChar).filter lowerAlnum = []
    · rw [if_pos hfe]; left; rfl
    · rw [if_neg hfe]
      right
      refine ⟨rfl, by simpa using hfe, ?_⟩
      intro c hc
      simp only [List.tail_cons] at hc
      have hmem : lowerAlnum c = true := (List.mem_filter.mp hc).2
      refine ⟨hmem, ?_⟩
      intro hdot
      rw [hdot] at hmem
      exact absurd hmem (by decide)

/-- Claim C9: every `sanitize_extension` result is empty or a single dot
followed by one or more `[a-z0-9]` characters with no second dot, and
consequently `sanitize` merges a compound `.tar.gz` extension into one
segment: `sanitize "Archive.tar.gz" = "archive.targz"`. -/
theorem claim_C9 :
    (∀ e : String, FilenameSanitizer.sanitize_extension e = "" ∨
      ((FilenameSanitizer.sanitize_extension e).data.head? = some '.' ∧
       (FilenameSanitizer.sanitize_extension e).data.tail ≠ [] ∧
       ∀ c ∈ (FilenameSanitizer.sanitize_extension e).data.tail,
         lowerAlnum c = true ∧ c ≠ '.')) ∧
    FilenameSanitizer.sanitize "Archive.tar.gz" = "archive.targz" :=
  ⟨sanitize_extension_shape, by decide⟩

/-! ## Claim C1 -/

set_option maxRecDepth 100000 in
/-- Claim C1 (code bug): the 180-character bound fails when the final
dot-segment of the input is itself longer than the budget.  On
`"a." ++ 200 b characters`, `truncate_if_needed` computes a negative
`max_base_len`, the Python slice empties the base, and the oversized
extension is kept, so `sanitize` returns a 201-character name; similarly
`add_collision_suffix` keeps an oversized extension and exceeds 180. -/
theorem claim_C1_code_bug :
    (FilenameSanitizer.sanitize ("a." ++ repChar 200 'b')).length = 201 ∧
    180 < (FilenameSanitizer.add_collision_suffix (repChar 100 'x')
      ("." ++ repChar 200 'b') "orig").length := by
  refine ⟨?_, ?_⟩ <;> decide

/-! ## Claim C3: amended theorem -/

/-- Claim C3 (amended): whenever the sanitized extension is at most 179
characters — so that the truncation budget leaves at least one character
for the base — `sanitize x` satisfies the `is_safe_filename` grammar:
lowercase, base matching `^[a-z0-9][a-z0-9_-]*[a-z0-9]$` or a single
`[a-z0-9]`, extension empty or matching `^\.[a-z0-9]+(\.[a-z0-9]+)?$`, no
adjacent separator pair, and total length at most 180. -/
theorem claim_C3 (x : String)
    (h : (FilenameSanitizer.sanitize_extension
      (FilenameSanitizer.split_filename x).2).length ≤ 179) :
    FilenameSanitizer.is_safe_filename (FilenameSanitizer.sanitize x) = true := by
  have hgb0 := sanitize_base_name_props (FilenameSanitizer.split_filename x).1
  have hgb1 := check_reserved_props _ hgb0.1
  have hBp := truncate_props _ _ hgb1 h
  obtain ⟨⟨hne, hchars, hhead, hlast, hnosep⟩, hlenB⟩ := hBp
  have hsplit := split_sanitize x
  apply is_safe_of_parts
  · rw [sanitize_eq]
    apply pyLower_fix_str
    intro c hc
    rw [data_append] at hc
    rcases List.mem_append.mp hc with h1 | h1
    · rcases Bool.or_eq_true_iff.mp (List.all_eq_true.mp hchars c h1) with h2 | h2
      · exact Or.inl h2
      · exact Or.inr (Or.inl h2)
    · rcases sanitize_extension_cases (FilenameSanitizer.split_filename x).2 with
        hE | ⟨s, hEd, -, hsall⟩
      · rw [hE] at h1; simp at h1
      · rw [hEd] at h1
        rcases List.mem_cons.mp h1 with rfl | h2
        · exact Or.inr (Or.inr rfl)
        · exact Or.inl (hsall c h2)
  · rw [hsplit]
    rcases sanitize_extension_cases (FilenameSanitizer.split_filename x).2 with
      hE | ⟨s, hEd, hsne, hsall⟩
    · exact Or.inl hE
    · right
      rw [str_ext hEd]
      exact extPattern_of s hsne hsall
  · rw [hsplit]
    exact basePattern_of _ ⟨hne, hchars, hhead, hlast, hnosep⟩
  · rw [hsplit]
    exact hnosep
  · rw [sanitize_eq, length_append_str]
    exact hlenB

/-- Claim C3 witness: the amended theorem at the concrete input
`"My File (2023).TXT"`, with the hypothesis discharged by evaluation. -/
theorem claim_C3_witness :
    (FilenameSanitizer.sanitize_extension
        (FilenameSanitizer.split_filename "My File (2023).TXT").2).length ≤ 179 ∧
    FilenameSanitizer.is_safe_filename
      (FilenameSanitizer.sanitize "My File (2023).TXT") = true :=
  ⟨by decide, claim_C3 "My File (2023).TXT" (by decide)⟩

/-! ## Claim C2: amended theorem -/

/-- Claim C2 (amended): `sanitize` is idempotent on every input whose
sanitize output decomposes into a base containing no underscore that is
not a Windows reserved name and an extension of at most 179 characters.
(The excluded cases are real failures: a reserved base acquires a `file_`
prefix whose underscore a second pass rewrites — see the counterexample —
and an extension at least 180 characters long empties the base or
re-truncates it.) -/
theorem claim_C2 (x : String)
    (hus : ('_' ∈ (FilenameSanitizer.split_filename
      (FilenameSanitizer.sanitize x)).1.data) = False)
    (hres : FilenameSanitizer.RESERVED_NAMES.contains
      (pyLower (FilenameSanitizer.split_filename
        (FilenameSanitizer.sanitize x)).1) = false)
    (hext : (FilenameSanitizer.sanitize_extension
      (FilenameSanitizer.split_filename x).2).length ≤ 179) :
    FilenameSanitizer.sanitize (FilenameSanitizer.sanitize x) =
      FilenameSanitizer.sanitize x := by
  have hgb0 := sanitize_base_name_props (FilenameSanitizer.split_filename x).1
  have hgb1 := check_reserved_props _ hgb0.1
  have hBp := truncate_props _ _ hgb1 hext
  obtain ⟨⟨hne, hchars, hhead, hlast, hnosep⟩, hlenB⟩ := hBp
  have hsplit := split_sanitize x
  rw [hsplit] at hus hres
  set Bv := FilenameSanitizer.truncate_if_needed
    (FilenameSanitizer.check_reserved_name
      (FilenameSanitizer.sanitize_base_name
        (FilenameSanitizer.split_filename x).1))
    (FilenameSanitizer.sanitize_extension
      (FilenameSanitizer.split_filename x).2) with hBdef
  set Ev := FilenameSanitizer.sanitize_extension
    (FilenameSanitizer.split_filename x).2 with hEdef
  have h1 : (FilenameSanitizer.split_filename
      (FilenameSanitizer.sanitize x)).1 = Bv := by rw [hsplit]
  have h2 : (FilenameSanitizer.split_filename
      (FilenameSanitizer.sanitize x)).2 = Ev := by rw [hsplit]
  have hus2 : '_' ∉ Bv.data := by simpa using hus
  have hres2 : FilenameSanitizer.RESERVED_NAMES.contains (pyLower Bv) = false := by
    simpa using hres
  have hcore : coreCharsB Bv.data = true := by
    refine List.all_eq_true.mpr fun c hc => ?_
    rcases Bool.or_eq_true_iff.mp (List.all_eq_true.mp hchars c hc) with hca | hca
    · simp [hca]
    · have hd : c = '-' := by
        rcases Bool.or_eq_true_iff.mp hca with h3 | h3
        · simpa using h3
        · have he : c = '_' := by simpa using h3
          rw [he] at hc
          exact absurd hc hus2
      simp [hd]
  have hid : FilenameSanitizer.sanitize_base_name Bv = Bv :=
    sanitize_base_name_id Bv.data hne hcore hhead hlast hnosep
  have hcheck : FilenameSanitizer.check_reserved_name Bv = Bv := by
    unfold FilenameSanitizer.check_reserved_name
    rw [if_neg (by rw [hres2]; simp)]
  have hextid : FilenameSanitizer.sanitize_extension Ev = Ev := by
    rcases sanitize_extension_cases (FilenameSanitizer.split_filename x).2 with
      hE | ⟨s, hEd, hsne, hsall⟩
    · rw [← hEdef] at hE
      rw [hE]
      rfl
    · have hEeq : Ev = ⟨'.' :: s⟩ := by
        rw [hEdef]
        exact str_ext hEd
      rw [hEeq]
      exact sanitize_extension_id s hsne hsall
  have htrunc : FilenameSanitizer.truncate_if_needed Bv Ev = Bv := by
    rw [truncate_if_needed_eq]
    rw [if_neg (by
      rw [show FilenameSanitizer.MAX_FILENAME_LENGTH = 180 from rfl]
      omega)]
  conv_lhs => rw [sanitize_eq (FilenameSanitizer.sanitize x)]
  rw [h1, h2, hextid, hid, hcheck, htrunc]
  conv_rhs => rw [sanitize_eq x]

/-- Claim C2 witness: the amended idempotence theorem at the concrete
input `"My File (2023).TXT"`, all hypotheses discharged by evaluation. -/
theorem claim_C2_witness :
    FilenameSanitizer.sanitize
        (FilenameSanitizer.sanitize "My File (2023).TXT") =
      FilenameSanitizer.sanitize "My File (2023).TXT" :=
  claim_C2 "My File (2023).TXT" (by decide) (by decide) (by decide)

/-! ## Claim C2: counterexample -/

/-- Claim C2 counterexample: `sanitize` is not idempotent.
`sanitize "CON.txt" = "file_con.txt"` (reserved-name guard inserts a
`file_` prefix with an underscore), but sanitizing again rewrites the
underscore to a hyphen, giving `"file-con.txt"`. -/
theorem claim_C2_counterexample :
    FilenameSanitizer.sanitize (FilenameSanitizer.sanitize "CON.txt") ≠
      FilenameSanitizer.sanitize "CON.txt" := by decide

/-! ## Claim C3: counterexample -/

set_option maxRecDepth 100000 in
/-- Claim C3 counterexample: `sanitize` output can violate the
`isAlreadySafe` grammar.  For `"a." ++ 179 b characters` the extension
consumes the whole 180-character budget, the base is truncated to the
empty string, and the result (a 180-character name starting with a dot)
fails `is_safe_filename` because its base is empty. -/
theorem claim_C3_counterexample :
    FilenameSanitizer.is_safe_filename
      (FilenameSanitizer.sanitize ("a." ++ repChar 179 'b')) = false := by decide

/-! ## Claim C7 -/

/-- Claim C7 (amended): `rename_directory` catches a listing failure and
returns the empty result list (no fabricated per-file outcomes, and no
propagation to the caller), while a successful listing yields exactly one
`rename_file` outcome per listed file. -/
theorem claim_C7 (caps : Capabilities) (dir : String)
    (recursive dry_run : Bool) :
    (∀ e, caps.list_files dir recursive = Except.error e →
      BaseFileRenamer.rename_directory caps dir recursive dry_run = []) ∧
    (∀ fs, caps.list_files dir recursive = Except.ok fs →
      BaseFileRenamer.rename_directory caps dir recursive dry_run =
        fs.map (fun p => (BaseFileRenamer.rename_file caps p dry_run).1)) := by
  constructor <;> intro v h <;>
    unfold BaseFileRenamer.rename_directory <;> rw [h]

/-- Claim C7 counterexample: an enumeration failure does **not** propagate
to the caller as a whole-operation failure — `rename_directory` returns
normally, and its result is indistinguishable from that of a benign empty
directory. -/
theorem claim_C7_counterexample :
    BaseFileRenamer.rename_directory wFailListCaps "d" true false =
      BaseFileRenamer.rename_directory wEmptyListCaps "d" true false := by
  decide

/-- Claim C7 witness: the amended theorem applied to the concrete failing
listing capability. -/
theorem claim_C7_witness :
    wFailListCaps.list_files "d" true = Except.error "target unreachable" ∧
    BaseFileRenamer.rename_directory wFailListCaps "d" true false = [] :=
  ⟨rfl, (claim_C7 wFailListCaps "d" true false).1 "target unreachable" rfl⟩

/-! ## Claim C10 -/

/-- Claim C10: `is_remote_path` returns true exactly on strings matching
an initial letter, a run of word characters or hyphens, and a colon not
followed by a slash or backslash; in particular `"gdrive:folder"` and the
bare drive string `"C:"` are remote while `"C:\folder"`, `"/home/user"`
and `"\\server\share"` are local. -/
theorem claim_C10 :
    (∀ s : String, is_remote_path s = true ↔ remoteSpec s) ∧
    is_remote_path "gdrive:folder" = true ∧
    is_remote_path "C:\\folder" = false ∧
    is_remote_path "/home/user" = false ∧
    is_remote_path "\\\\server\\share" = false ∧
    is_remote_path "C:" = true := by
  refine ⟨?_, by decide, by decide, by decide, by decide, by decide⟩
  intro s
  obtain ⟨l⟩ := s
  constructor
  · intro h
    cases l with
    | nil => exact absurd h (by decide)
    | cons c rest =>
      have h2 : c.isAlpha = true ∧
          remoteAfterRun (rest.dropWhile isWordOrHyphen) = true := by
        simpa [is_remote_path, Bool.and_eq_true] using h
      obtain ⟨hca, har⟩ := h2
      cases hdrop : rest.dropWhile isWordOrHyphen with
      | nil => rw [hdrop] at har; exact absurd har (by decide)
      | cons d tail =>
        rw [hdrop] at har
        have h3 : (d == ':') = true ∧ remoteTailOk tail = true := by
          simpa [remoteAfterRun, Bool.and_eq_true] using har
        have hdc : d = ':' := by simpa using h3.1
        refine ⟨c, rest.takeWhile isWordOrHyphen, tail, ?_, hca, ?_, ?_⟩
        · show c :: rest = c :: (rest.takeWhile isWordOrHyphen ++ ':' :: tail)
          rw [← hdc, ← hdrop, List.takeWhile_append_dropWhile]
        · intro w hw
          exact List.mem_takeWhile_imp hw
        · intro t ts hts
          have h4 := h3.2
          rw [hts] at h4
          have h5 : ((t == '\\') || (t == '/')) = false := by
            simpa [remoteTailOk] using h4
          rcases Bool.or_eq_false_iff.mp h5 with ⟨e1, e2⟩
          exact ⟨ne_of_beq_false e1, ne_of_beq_false e2⟩
  · rintro ⟨c, ws, tail, hd, hca, hws, htail⟩
    have hd2 : l = c :: (ws ++ ':' :: tail) := hd
    subst hd2
    have hdrop : (ws ++ ':' :: tail).dropWhile isWordOrHyphen = ':' :: tail :=
      dropWhile_all_append _ _ _ _ hws (by decide)
    show (c.isAlpha && remoteAfterRun ((ws ++ ':' :: tail).dropWhile isWordOrHyphen))
        = true
    rw [hdrop, hca]
    cases tail with
    | nil => decide
    | cons t ts =>
      have ht := htail t ts rfl
      have e1 : (t == '\\') = false := beq_false_of_ne ht.1
      have e2 : (t == '/') = false := beq_false_of_ne ht.2
      simp [remoteAfterRun, remoteTailOk, e1, e2]
/-! ## Claim C4 -/

/-- Claim C4 counterexample: the disambiguated name is **not** a function
of the original name alone — `add_collision_suffix` also depends on the
sanitized base it receives, so two calls with the same `original_name` but
different bases yield different names. -/
theorem claim_C4_counterexample :
    FilenameSanitizer.add_collision_suffix "a" ".txt" "My Photo.JPG" ≠
      FilenameSanitizer.add_collision_suffix "b" ".txt" "My Photo.JPG" := by
  decide

/-- Claim C4 (amended): within the pipeline the resolver is deterministic
as a function of the file path alone.  `rename_file` always passes the
base and extension obtained by sanitizing the same original filename, so
two dry runs of the same path under any two capability bundles whose
probes both report the destination occupied produce identical results: the
collision candidate depends only on the original name and parent. -/
theorem claim_C4 (caps1 caps2 : Capabilities) (p : String)
    (h1 : caps1.file_exists (pathJoin (pathParent p)
      (FilenameSanitizer.sanitize (pathName p))) = true)
    (h2 : caps2.file_exists (pathJoin (pathParent p)
      (FilenameSanitizer.sanitize (pathName p))) = true) :
    BaseFileRenamer.rename_file caps1 p true =
      BaseFileRenamer.rename_file caps2 p true := by
  by_cases hsys : FilenameSanitizer.is_system_file (pathName p) = true
  · simp [BaseFileRenamer.rename_file, hsys]
  · by_cases hsafe : FilenameSanitizer.is_safe_filename (pathName p) = true
    · simp [BaseFileRenamer.rename_file, hsys, hsafe]
    · simp [BaseFileRenamer.rename_file, hsys, hsafe, h1, h2]

/-- Claim C4 witness: the amended theorem at a concrete path under two
entirely different capability bundles that both report a collision. -/
theorem claim_C4_witness :
    wCaps4.file_exists (pathJoin (pathParent "d/My File.TXT")
      (FilenameSanitizer.sanitize (pathName "d/My File.TXT"))) = true ∧
    BaseFileRenamer.rename_file wCaps4 "d/My File.TXT" true =
      BaseFileRenamer.rename_file wCaps4b "d/My File.TXT" true :=
  ⟨rfl, claim_C4 wCaps4 wCaps4b "d/My File.TXT" rfl rfl⟩

/-! ## Claim C5 -/

/-- `rename_file` depends on the capability bundle only through the probe,
the rename at the file in question, hashing, size, sidecar writing, the
algorithm name and the clock. -/
theorem rename_file_congr (c1 c2 : Capabilities) (p : String) (dry : Bool)
    (hfe : c1.file_exists = c2.file_exists)
    (hpr : ∀ n, c1.perform_rename p n = c2.perform_rename p n)
    (hch : c1.compute_hash = c2.compute_hash)
    (halg : c1.algorithm_name = c2.algorithm_name)
    (hsz : c1.get_file_size = c2.get_file_size)
    (hsw : c1.write_sidecar = c2.write_sidecar)
    (hnow : c1.now = c2.now) :
    BaseFileRenamer.rename_file c1 p dry =
      BaseFileRenamer.rename_file c2 p dry := by
  simp only [BaseFileRenamer.rename_file]
  rw [hfe, hch, halg, hsz, hsw, hnow, hpr]

/-- Claim C5: in a batch whose listing yields `files`, if exactly one
file's rename capability raises, the batch result still has one outcome
per file, the failing file's outcome is `Failed` carrying the raised
message, and every other outcome is the same as in the run without the
failure.  (`rename_file` is total by construction, mirroring its
`try`/`except`: no exception ever reaches the caller.) -/
theorem claim_C5 (caps caps2 : Capabilities) (dir : String) (rec : Bool)
    (files : List String) (i : Nat) (bad msg : String)
    (hlist : caps.list_files dir rec = Except.ok files)
    (hbad : files[i]? = some bad)
    (huniq : ∀ j, j ≠ i → files[j]? ≠ some bad)
    (hsys : FilenameSanitizer.is_system_file (pathName bad) = false)
    (hsafe : FilenameSanitizer.is_safe_filename (pathName bad) = false)
    (hcaps2 : caps2 = { caps with perform_rename := fun o n =>
      if o = bad then Except.error msg else caps.perform_rename o n }) :
    ((BaseFileRenamer.rename_directory caps2 dir rec false).length
        = files.length) ∧
    ((BaseFileRenamer.rename_directory caps2 dir rec false)[i]? =
        some (RenameResult.mkFailure bad msg)) ∧
    (∀ j, j ≠ i →
      (BaseFileRenamer.rename_directory caps2 dir rec false)[j]? =
      (BaseFileRenamer.rename_directory caps dir rec false)[j]?) := by
  subst hcaps2
  have hlist2 : ({ caps with perform_rename := fun o n =>
      if o = bad then Except.error msg
      else caps.perform_rename o n } : Capabilities).list_files dir rec
      = Except.ok files := hlist
  have hdir2 : BaseFileRenamer.rename_directory
      { caps with perform_rename := fun o n =>
        if o = bad then Except.error msg else caps.perform_rename o n }
      dir rec false =
      files.map fun p => (BaseFileRenamer.rename_file
        { caps with perform_rename := fun o n =>
          if o = bad then Except.error msg else caps.perform_rename o n }
        p false).1 := by
    unfold BaseFileRenamer.rename_directory
    rw [hlist2]
  have hdir1 : BaseFileRenamer.rename_directory caps dir rec false =
      files.map fun p => (BaseFileRenamer.rename_file caps p false).1 := by
    unfold BaseFileRenamer.rename_directory
    rw [hlist]
  rw [hdir1, hdir2]
  refine ⟨List.length_map _ _, ?_, ?_⟩
  · rw [List.getElem?_map, hbad]
    have hmain : (BaseFileRenamer.rename_file
        { caps with perform_rename := fun o n =>
          if o = bad then Except.error msg else caps.perform_rename o n }
        bad false).1 = RenameResult.mkFailure bad msg := by
      simp only [BaseFileRenamer.rename_file, hsys, hsafe]
      cases hex : caps.file_exists (pathJoin (pathParent bad)
          (FilenameSanitizer.sanitize (pathName bad))) <;>
        simp [hex]
    simp [hmain]
  · intro j hj
    rw [List.getElem?_map, List.getElem?_map]
    cases hjv : files[j]? with
    | none => rfl
    | some p =>
      have hp : p ≠ bad := by
        intro he
        exact (huniq j hj) (he ▸ hjv)
      have hcong : BaseFileRenamer.rename_file
          { caps with perform_rename := fun o n =>
            if o = bad then Except.error msg else caps.perform_rename o n }
          p false = BaseFileRenamer.rename_file caps p false := by
        apply rename_file_congr
        · rfl
        · intro n
          show (if p = bad then Except.error msg else caps.perform_rename p n)
            = caps.perform_rename p n
          rw [if_neg hp]
        · rfl
        · rfl
        · rfl
        · rfl
        · rfl
      simp [hcong]

/-- Claim C5 witness: a two-file batch where only the first rename raises;
the theorem applied at these concrete capability bundles. -/
theorem claim_C5_witness :
    (FilenameSanitizer.is_safe_filename (pathName "d/A B.TXT") = false) ∧
    ((BaseFileRenamer.rename_directory wCaps5bad "d" true false)[0]? =
      some (RenameResult.mkFailure "d/A B.TXT" "disk full")) ∧
    (∀ j, j ≠ 0 →
      (BaseFileRenamer.rename_directory wCaps5bad "d" true false)[j]? =
      (BaseFileRenamer.rename_directory wCaps5 "d" true false)[j]?) := by
  have huniq : ∀ j, j ≠ 0 →
      (["d/A B.TXT", "d/C D.TXT"] : List String)[j]? ≠ some "d/A B.TXT" := by
    intro j hj
    match j with
    | 0 => exact absurd rfl hj
    | 1 =>
      intro hcontra
      exact absurd (Option.some.inj hcontra) (by decide)
    | n + 2 =>
      intro hcontra
      exact Option.noConfusion hcontra
  have h := claim_C5 wCaps5 wCaps5bad "d" true ["d/A B.TXT", "d/C D.TXT"] 0
    "d/A B.TXT" "disk full" rfl rfl huniq (by decide) (by decide) rfl
  exact ⟨by decide, h.2.1, h.2.2⟩

/-! ## Claim C6 -/

/-- Claim C6: a dry run on a file that is neither a system file nor
already safe returns `Success` reporting the would-be destination and the
would-be sidecar path (destination plus `.meta.json`), and its capability
trace is exactly one existence probe — the rename, hash, size and
sidecar-write capabilities are never invoked, so storage and sidecar state
are untouched. -/
theorem claim_C6 (caps : Capabilities) (p : String)
    (hsys : FilenameSanitizer.is_system_file (pathName p) = false)
    (hsafe : FilenameSanitizer.is_safe_filename (pathName p) = false) :
    BaseFileRenamer.rename_file caps p true =
      (RenameResult.mkSuccess p (dryRunTargetPath caps p)
        (dryRunTargetPath caps p ++ ".meta.json"),
       [CapEvent.probe (pathJoin (pathParent p)
         (FilenameSanitizer.sanitize (pathName p)))]) := by
  simp only [BaseFileRenamer.rename_file, dryRunTargetPath, hsys, hsafe]
  cases hex : caps.file_exists (pathJoin (pathParent p)
      (FilenameSanitizer.sanitize (pathName p))) <;>
    simp [hex]

/-- Claim C6 witness: the theorem at a concrete path under a bundle whose
rename, hash, size and sidecar capabilities would all fail if invoked; the
dry run still succeeds and traces only the probe. -/
theorem claim_C6_witness :
    FilenameSanitizer.is_safe_filename (pathName "d/My File.TXT") = false ∧
    BaseFileRenamer.rename_file wCaps6 "d/My File.TXT" true =
      (RenameResult.mkSuccess "d/My File.TXT" "d/my-file.txt"
        "d/my-file.txt.meta.json",
       [CapEvent.probe "d/my-file.txt"]) := by
  refine ⟨by decide, ?_⟩
  rw [claim_C6 wCaps6 "d/My File.TXT" (by decide) (by decide)]
  decide
